import Mathlib

/-! Conway's Game of Life (`life/main.go`).

A shallow embedding of the grid engine of `life/main.go` and the properties
of it that the specification states.

Modelling conventions.

* Go `int` is the signed 64-bit integer type of the 64-bit platforms.  A value
  of that type is modelled by an `Int`, and an arithmetic result that can leave
  the 64-bit range is reduced to it by `wrap64` (two's complement wraparound):
  the product `width*height` of `NewLife` and `Cap`, and the product and the
  sum of `index`.  Loop counters and the neighbour coordinates `i + off.x`,
  `j + off.y` of `nextStatus` stay within one step of an in-range coordinate
  and are taken as they are.
* `Status` is a Go `byte`; it is modelled by `Fin 256`, with the two named
  constants `Dead = 0` and `Live = 1`.
* A slice is modelled by a `List`.  An indexing expression `s[k]` panics at run
  time when `k < 0` or `k >= len(s)`; `make([]T, n)` panics when `n < 0` or
  `n` exceeds the allocation limit of the runtime (`maxAlloc`), and is taken to
  return otherwise (exhaustion of the machine's memory is not modelled).  A
  slice of bytes never holds more than `maxAlloc` elements.
  A function that may panic returns an `Option`, `none` standing for the panic.
* `NextGen` works on two heap objects, the receiver and the freshly allocated
  grid; its loop is modelled on a state holding both (`GenState`).
* The text `Dump` writes to standard output is modelled by the list of its
  characters.  The loop of `main` is run for a bounded number of iterations
  (`mainLoop`); `time.Sleep` changes no state and is left out.
* For the demonstration run, a grid is also written as one number, bit
  `y*width + x` standing for the cell `(x,y)` (`bitGrid`), and a generation is
  computed on that number with bitwise operations (`bitNext`); the lemma
  `bitStep` together with `bitNext_stepOk` ties this to `NextGen`.
-/

namespace GameOfLife

/-- Go `type Status byte`. -/
abbrev Status := Fin 256

/-- Go `Dead Status = iota`. -/
def Dead : Status := 0

/-- Go `Live` (the second constant of the `iota` block). -/
def Live : Status := 1

/-- Go `var offsets = []struct{ x, y int }{...}`, in source order. -/
def offsets : List (Int × Int) :=
  [(-1, -1), (0, -1), (1, -1), (-1, 0), (1, 0), (-1, 1), (0, 1), (1, 1)]

/-- Go `type Life struct { Cells []Status; width int; height int }`. -/
structure Life where
  Cells : List Status
  width : Int
  height : Int
deriving DecidableEq, Repr

/-- Slice read `cells[k]`: panics (`none`) unless `0 <= k < len(cells)`. -/
def readCell (cells : List Status) (k : Int) : Option Status :=
  if 0 ≤ k then cells.get? k.toNat else none

/-- Slice store `cells[k] = v`: panics (`none`) unless `0 <= k < len(cells)`. -/
def writeCell (cells : List Status) (k : Int) (v : Status) : Option (List Status) :=
  if 0 ≤ k ∧ k.toNat < cells.length then some (cells.set k.toNat v) else none

/-- The value of a Go `int` expression whose mathematical result is `z`: the
representative of `z` modulo `2^64` in the signed range `[-2^63, 2^63)`. -/
def wrap64 (z : Int) : Int :=
  (z + 9223372036854775808) % 18446744073709551616 - 9223372036854775808

/-- The allocation limit of the Go runtime (`maxAlloc` of `runtime/malloc.go`),
`2^48` bytes on linux/amd64; `Status` is one byte wide. -/
def maxAlloc : Int := 281474976710656

/-- Go `make([]Status, n)`: panics (`len out of range`) for a negative length
and for a length beyond `maxAlloc`, otherwise a slice of `n` zero values. -/
def makeCells (n : Int) : Option (List Status) :=
  if 0 ≤ n ∧ n ≤ maxAlloc then some (List.replicate n.toNat Dead) else none

/-- Go `func NewLife(width, height int) *Life`. -/
def NewLife (width height : Int) : Option Life := do
  let cells ← makeCells (wrap64 (width * height))
  some { Cells := cells, width := width, height := height }

/-- Go `func (life *Life) Cap() int`. -/
def Life.Cap (life : Life) : Int :=
  wrap64 (life.width * life.height)

/-- Go `func (life *Life) index(i, j int) int`: `j*life.width + i`, the product
and the sum each in 64-bit arithmetic. -/
def Life.index (life : Life) (i j : Int) : Int :=
  wrap64 (wrap64 (j * life.width) + i)

/-- One iteration of the loop `for _, off := range offsets` of `nextStatus`,
from the running `count` to the new one.  `nextStatus` is called by `NextGen`
only, at coordinates inside the grid, where `i + off.x`, `j + off.y` and the
count (at most 8) are far from the ends of the 64-bit range. -/
def Life.countStep (life : Life) (i j : Int) (count : Int) (off : Int × Int) : Option Int :=
  let x := i + off.1
  let y := j + off.2
  if x < 0 ∨ x ≥ life.width ∨ y < 0 ∨ y ≥ life.height then
    some count
  else do
    let s ← readCell life.Cells (life.index x y)
    if s = Live then some (count + 1) else some count

/-- The counting loop of `nextStatus`: `count := 0; for _, off := range offsets {...}`. -/
def Life.countLoop (life : Life) (i j : Int) : Option Int :=
  offsets.foldlM (life.countStep i j) 0

/-- The `switch` of `nextStatus`, on the cell's status and the count. -/
def switchStatus (status : Status) (count : Int) : Status :=
  if status = Dead ∧ count = 3 then Live
  else if status = Live ∧ (count < 2 ∨ count > 3) then Dead
  else if status = Live then Live
  else status

/-- Go `func (life *Life) nextStatus(i, j int) Status`. -/
def Life.nextStatus (life : Life) (i j : Int) : Option Status := do
  let count ← life.countLoop i j
  let status ← readCell life.Cells (life.index i j)
  some (switchStatus status count)

/-- The two heap objects `NextGen` works on: the receiver `life` and the
newly allocated `next`. -/
structure GenState where
  life : Life
  next : Life
deriving DecidableEq, Repr

/-- The body of the inner loop of `NextGen`:
`index := life.index(i, j); next.Cells[index] = life.nextStatus(i, j)`. -/
def genBody (σ : GenState) (i j : Int) : Option GenState := do
  let index := σ.life.index i j
  let v ← σ.life.nextStatus i j
  let cells ← writeCell σ.next.Cells index v
  some { σ with next := { σ.next with Cells := cells } }

/-- The inner loop of `NextGen`: `for j := 0; j < life.height; j++ {...}`. -/
def genInner (σ : GenState) (i : Int) : Option GenState :=
  (List.range σ.life.height.toNat).foldlM (fun τ (j : Nat) => genBody τ i j) σ

/-- The outer loop of `NextGen`: `for i := 0; i < life.width; i++ {...}`. -/
def genOuter (σ : GenState) : Option GenState :=
  (List.range σ.life.width.toNat).foldlM (fun τ (i : Nat) => genInner τ i) σ

/-- Go `func (life *Life) NextGen() *Life`, with the final state of both
objects: the receiver and the grid that is returned. -/
def Life.NextGenRun (life : Life) : Option GenState := do
  let next ← NewLife life.width life.height
  genOuter { life := life, next := next }

/-- Go `func (life *Life) NextGen() *Life`: the returned grid. -/
def Life.NextGen (life : Life) : Option Life :=
  (life.NextGenRun).map GenState.next

/-- Go `func (life *Life) Over() bool`: the `range` loop with its early
`return false`. -/
def overLoop : List Status → Bool
  | [] => true
  | v :: rest => if v = Live then false else overLoop rest

/-- Go `func (life *Life) Over() bool`. -/
def Life.Over (life : Life) : Bool :=
  overLoop life.Cells

/-- Go `func (life *Life) Over() bool` with the receiver after the call: the
body reads `life.Cells` and stores nothing. -/
def Life.OverRun (life : Life) : Bool × Life :=
  (life.Over, life)

/-- Go `func (life *Life) Seed(i, j int)`: the first component tells whether the
call returned (`some ()`) or panicked (`none`), the second is the receiver
after the call.  The bounds check of the store precedes the store, so a panic
leaves the receiver as it was. -/
def Life.Seed (life : Life) (i j : Int) : Option Unit × Life :=
  match writeCell life.Cells (life.index i j) Live with
  | some cells => (some (), { life with Cells := cells })
  | none => (none, life)

/-! ## Vocabulary of the specification -/

/-- The cell array has length `width*height`; being a Go slice of bytes, it
holds at most `maxAlloc` elements. -/
def Life.Valid (life : Life) : Prop :=
  (life.Cells.length : Int) = life.width * life.height ∧
    (life.Cells.length : Int) ≤ maxAlloc

/-- Every cell is `Dead` or `Live`. -/
def Life.Binary (life : Life) : Prop :=
  ∀ s ∈ life.Cells, s = Dead ∨ s = Live

/-- The coordinate lies inside `[0,width) x [0,height)`. -/
def Life.InGrid (life : Life) (x y : Int) : Prop :=
  0 ≤ x ∧ x < life.width ∧ 0 ≤ y ∧ y < life.height

instance (life : Life) : Decidable life.Valid := by
  unfold Life.Valid; infer_instance

instance (life : Life) : Decidable life.Binary := by
  unfold Life.Binary; infer_instance

instance (life : Life) (x y : Int) : Decidable (life.InGrid x y) := by
  unfold Life.InGrid; infer_instance

/-- The state of cell `(x,y)`: the element of the cell array at index
`y*width + x`, when there is one. -/
def Life.cell (life : Life) (x y : Int) : Option Status :=
  readCell life.Cells (y * life.width + x)

/-- Whether the Moore offset `off` of `(x,y)` leads to a coordinate inside the
grid whose cell is `Live`. -/
def Life.liveAt (life : Life) (x y : Int) (off : Int × Int) : Bool :=
  decide (life.InGrid (x + off.1) (y + off.2)) &&
    decide (life.cell (x + off.1) (y + off.2) = some Live)

/-- The number of the 8 Moore offsets `(dx,dy)` for which `(x+dx, y+dy)` lies
inside the grid and the cell there is `Live`. -/
def Life.liveNeighbours (life : Life) (x y : Int) : Nat :=
  (offsets.filter (life.liveAt x y)).length

/-- The cells of the two grids are equal on `(x,y)` and on every coordinate
`(x+dx, y+dy)`, `dx, dy` in `{-1,0,1}`, that lies inside the first grid. -/
def Life.AgreeAround (g1 g2 : Life) (x y : Int) : Prop :=
  ∀ dx ∈ ([-1, 0, 1] : List Int), ∀ dy ∈ ([-1, 0, 1] : List Int),
    g1.InGrid (x + dx) (y + dy) → g1.cell (x + dx) (y + dy) = g2.cell (x + dx) (y + dy)

/-- A sequence of `Seed` calls, as at the start of `main`; a panic ends it. -/
def seedAll (life : Life) : List (Int × Int) → Option Life
  | [] => some life
  | p :: ps =>
    match life.Seed p.1 p.2 with
    | (some _, life') => seedAll life' ps
    | (none, _) => none

/-- `NewLife(width, height)` followed by a `Seed` call for each coordinate of
the list: the grid whose only `Live` cells are those of the list. -/
def patternGrid (width height : Int) (pts : List (Int × Int)) : Option Life :=
  (NewLife width height).bind (fun g => seedAll g pts)

/-- The horizontal phase of the blinker. -/
def blinkerRow : List (Int × Int) := [(1, 2), (2, 2), (3, 2)]

/-- The vertical phase of the blinker. -/
def blinkerCol : List (Int × Int) := [(2, 1), (2, 2), (2, 3)]

/-- The number of Moore offsets of `(x,y)` that lead to a coordinate of the
list `pts`. -/
def patternCount (pts : List (Int × Int)) (x y : Int) : Nat :=
  (offsets.filter (fun off => decide ((x + off.1, y + off.2) ∈ pts))).length

/-- The state of `(x,y)` in a pattern: `Live` on the list, `Dead` off it. -/
def patternStatus (pts : List (Int × Int)) (x y : Int) : Status :=
  if (x, y) ∈ pts then Live else Dead

/-! ## The loop invariant of `NextGen` -/

/-- The value cell `k` of the new grid holds once the loops of `NextGen` have
finished the columns before `a` and the rows before `b` of column `a`. -/
def Life.expected (g : Life) (a b : Int) (k : Nat) : Status :=
  if 0 < g.width ∧
      ((k : Int) % g.width < a ∨ ((k : Int) % g.width = a ∧ (k : Int) / g.width < b)) then
    (g.nextStatus ((k : Int) % g.width) ((k : Int) / g.width)).getD Dead
  else Dead

/-- The loop invariant of `NextGen` at the start of iteration `(a, b)`: the
receiver is untouched, the new grid has the receiver's dimensions and length,
and its cells hold `expected`. -/
def GenInv (g : Life) (a b : Int) (σ : GenState) : Prop :=
  σ.life = g ∧ σ.next.width = g.width ∧ σ.next.height = g.height ∧
    σ.next.Cells.length = g.Cells.length ∧
    ∀ k : Nat, k < g.Cells.length → σ.next.Cells.get? k = some (g.expected a b k)

/-- What the loops of `NextGen` leave in cell `k` of the new grid. -/
def Life.nextCell (g : Life) (k : Nat) : Status :=
  if 0 < g.width then
    (g.nextStatus ((k : Int) % g.width) ((k : Int) / g.width)).getD Dead
  else Dead

/-! ## Concrete grids used as examples -/

/-- A 2x2 grid of `Dead` cells. -/
def deadGrid2x2 : Life :=
  { Cells := [Dead, Dead, Dead, Dead], width := 2, height := 2 }

/-- The 4x2 grid of `Dead` cells. -/
def deadGrid4x2 : Life :=
  { Cells := [Dead, Dead, Dead, Dead, Dead, Dead, Dead, Dead], width := 4, height := 2 }

/-- A 3x3 grid whose middle column is `Live`. -/
def columnGrid3x3 : Life :=
  { Cells := [Dead, Live, Dead, Dead, Live, Dead, Dead, Live, Dead], width := 3, height := 3 }

/-- The grid `columnGrid3x3` with the cell `(2,0)` of the last column `Live` too. -/
def cornerGrid3x3 : Life :=
  { Cells := [Dead, Live, Live, Dead, Live, Dead, Dead, Live, Dead], width := 3, height := 3 }

/-- The four cells of the 2x2 block whose corner of least coordinates is `(x,y)`. -/
def blockPts (x y : Int) : List (Int × Int) :=
  [(x, y), (x + 1, y), (x, y + 1), (x + 1, y + 1)]

/-- The number of the 8 Moore offsets `(dx,dy)` for which `(x+dx, y+dy)` lies
inside the grid. -/
def Life.inGridNeighbours (life : Life) (x y : Int) : Nat :=
  (offsets.filter (fun off => decide (life.InGrid (x + off.1) (y + off.2)))).length

/-- The bounds check of `nextStatus` lets the offset through: the negation of
`x < 0 || x >= life.width || y < 0 || y >= life.height`. -/
def Life.passesCheck (life : Life) (x y : Int) : Prop :=
  ¬ (x < 0 ∨ x ≥ life.width ∨ y < 0 ∨ y ≥ life.height)

/-! ## Rendering -/

/-- Text written to standard output, as the list of its characters. -/
abbrev Text := List Char

/-- Go `func (s Status) String() string`. -/
def Status.String (s : Status) : Text :=
  if s = Live then ['O'] else [' ']

/-- Go `strings.Repeat("-", count)`: panics for a negative count. -/
def repeatDash (count : Int) : Option Text :=
  if count < 0 then none else some (List.replicate count.toNat '-')

/-- The inner loop of `Dump`, appending to the text written so far:
`for j := 0; j < life.height; j++ { fmt.Printf("%s", life.Cells[life.index(i, j)]) }`. -/
def dumpInner (life : Life) (i : Int) (out : Text) : Option Text :=
  (List.range life.height.toNat).foldlM (fun acc (j : Nat) => do
    let s ← readCell life.Cells (life.index i j)
    some (acc ++ Status.String s)) out

/-- Go `func (life *Life) Dump()`: the text it writes.  `fmt.Println` ends its
line with a newline character. -/
def Life.Dump (life : Life) : Option Text := do
  let sep ← repeatDash life.width
  (List.range life.width.toNat).foldlM (fun out (i : Nat) => do
    let line ← dumpInner life i out
    some (line ++ ['\n'])) (sep ++ ['\n'])

/-- The layout of the specification: a line of `width` dashes, then one line
per row index `y`, whose character `x` is the marker of the cell `(x,y)`. -/
def Life.rowLayout (life : Life) : Text :=
  List.replicate life.width.toNat '-' ++ ['\n'] ++
    (List.range life.height.toNat).flatMap (fun (y : Nat) =>
      (List.range life.width.toNat).flatMap (fun (x : Nat) =>
        Status.String ((life.cell x y).getD Dead)) ++ ['\n'])

/-- The layout `Dump` writes: a line of `width` dashes, then one line per
column index `x`, whose character `y` is the marker of the cell `(x,y)`. -/
def Life.columnLayout (life : Life) : Text :=
  List.replicate life.width.toNat '-' ++ ['\n'] ++
    (List.range life.width.toNat).flatMap (fun (x : Nat) =>
      (List.range life.height.toNat).flatMap (fun (y : Nat) =>
        Status.String ((life.cell x y).getD Dead)) ++ ['\n'])

/-- A 3x1 grid whose middle cell is `Live`. -/
def rowGrid3x1 : Life :=
  { Cells := [Dead, Live, Dead], width := 3, height := 1 }

/-! ## The demonstration run of `main` -/

/-- The coordinates seeded by `main`, in the order of its `Seed` calls. -/
def demoSeeds : List (Int × Int) :=
  [(7, 6), (6, 6), (6, 5), (6, 4), (5, 6), (5, 5), (5, 4), (4, 4), (4, 5), (4, 6)]

/-- The grid of `main` before its loop: `NewLife(20, 20)` and the ten `Seed` calls. -/
def demoGrid : Option Life :=
  patternGrid 20 20 demoSeeds

/-- The grid after `n` calls of `NextGen`, each on the result of the one before. -/
def iterGen : Nat → Life → Option Life
  | 0, life => some life
  | n + 1, life => life.NextGen.bind (iterGen n)

/-- The state of the cell at flat index `k` in a cell array written as a
number: bit `k` set for `Live`, clear for `Dead`. -/
def bitStatus (n : Nat) (k : Int) : Status :=
  if n.testBit k.toNat then Live else Dead

/-- The grid of the given width and height whose cell at flat index `k` is
`Live` exactly when bit `k` of `n` is set. -/
def bitGrid (w h : Int) (n : Nat) : Life :=
  { Cells := (List.range (w * h).toNat).map (fun k => if n.testBit k then Live else Dead),
    width := w, height := h }

/-- The number of Moore offsets of `(x,y)` that lead to a coordinate inside the
`w` by `h` grid whose bit in `n` is set. -/
def bitCount (w h : Int) (n : Nat) (x y : Int) : Nat :=
  (offsets.filter (fun off =>
    decide (0 ≤ x + off.1 ∧ x + off.1 < w ∧ 0 ≤ y + off.2 ∧ y + off.2 < h) &&
      n.testBit ((y + off.2) * w + (x + off.1)).toNat)).length

/-- Whether the rule of `nextStatus`, applied at every cell of the `w` by `h`
grid written as `n`, gives the grid written as `m`. -/
def bitStepOk (w h : Nat) (n m : Nat) : Bool :=
  (List.range w).all fun i => (List.range h).all fun j =>
    decide (switchStatus (bitStatus n ((j : Int) * (w : Int) + (i : Int)))
        (bitCount w h n i j) = bitStatus m ((j : Int) * (w : Int) + (i : Int)))

/-! ## A whole generation at once on grids written as numbers -/

/-- The number whose bit `k`, for `k < len`, is set exactly when `p k`. -/
def maskOf (len : Nat) (p : Nat → Bool) : Nat :=
  (List.range len).foldl (fun acc k => if p k then acc ||| (1 <<< k) else acc) 0

/-- The number `n` with its bits moved down by `d` places (up, for negative `d`). -/
def shiftInt (n : Nat) (d : Int) : Nat :=
  if 0 ≤ d then n >>> d.toNat else n <<< (-d).toNat

/-- The cells of the `w` by `h` grid whose column plus `dx` is a column of the
grid, for `dx` in `{-1,0,1}`. -/
def colMask (w h : Nat) (dx : Int) : Nat :=
  if dx < 0 then maskOf (w * h) (fun k => decide (1 ≤ k % w))
  else if 0 < dx then maskOf (w * h) (fun k => decide (k % w + 1 < w))
  else maskOf (w * h) (fun _ => true)

/-- The cells of the `w` by `h` grid whose row plus `dy` is a row of the grid,
for `dy` in `{-1,0,1}`. -/
def rowMask (w h : Nat) (dy : Int) : Nat :=
  if dy < 0 then maskOf (w * h) (fun k => decide (w ≤ k))
  else if 0 < dy then maskOf (w * h) (fun k => decide (k + w < w * h))
  else maskOf (w * h) (fun _ => true)

/-- The number whose bit `k` is set when the neighbour at offset `off` of the
cell with flat index `k` is inside the grid and `Live`. -/
def nbWord (w h n : Nat) (off : Int × Int) : Nat :=
  shiftInt n (off.2 * (w : Int) + off.1) &&& (colMask w h off.1 &&& rowMask w h off.2)

/-- One more number added to a counter kept as four numbers, bit `k` of the
`i`-th holding binary digit `i` of the count at position `k`. -/
def addWord (s : Nat × Nat × Nat × Nat) (b : Nat) : Nat × Nat × Nat × Nat :=
  (s.1 ^^^ b, s.2.1 ^^^ (s.1 &&& b), s.2.2.1 ^^^ (s.2.1 &&& (s.1 &&& b)),
    s.2.2.2 ^^^ (s.2.2.1 &&& (s.2.1 &&& (s.1 &&& b))))

/-- The rule of Life on whole grids: bit `k` of the result is set when the
count at `k` is 3, or is 2 and bit `k` of `n` is set. -/
def ruleWord (n : Nat) (s : Nat × Nat × Nat × Nat) : Nat :=
  ((s.1 &&& s.2.1) ||| ((n &&& s.2.1) ^^^ ((n &&& s.2.1) &&& s.1))) ^^^
    (((s.1 &&& s.2.1) ||| ((n &&& s.2.1) ^^^ ((n &&& s.2.1) &&& s.1))) &&&
      (s.2.2.1 ||| s.2.2.2))

/-- The next generation of the `w` by `h` grid written as `n`. -/
def bitNext (w h n : Nat) : Nat :=
  ruleWord n ((offsets.map (nbWord w h n)).foldl addWord (0, 0, 0, 0))

/-- The count held at position `k` of a counter of four numbers. -/
def counterAt (s : Nat × Nat × Nat × Nat) (k : Nat) : Nat :=
  (s.1.testBit k).toNat + 2 * (s.2.1.testBit k).toNat + 4 * (s.2.2.1.testBit k).toNat +
    8 * (s.2.2.2.testBit k).toNat

/-- Whether each grid of the list steps to the next one. -/
def chainOk (w h : Nat) : List Nat → Bool
  | a :: b :: rest => (bitNext w h a == b) && chainOk w h (b :: rest)
  | _ => true

/-- Whether some cell of the `w` by `h` grid written as `n` is `Live`. -/
def anyLive (w h : Nat) (n : Nat) : Bool :=
  (List.range (w * h)).any (fun k => n.testBit k)

/-- Generations 0 to 34 of the demonstration run, each 20x20 grid written as a
number (bit `y*20+x` for the cell `(x,y)`). -/
def demoGens : List Nat :=
  [319014860965382434750403500565608792064,
   133804662600025273178615936081977304426741760,
   133804620064790255251433331943755083618975744,
   111503736626487223278850114781395785105801216,
   31901507393103144428239428742534922240,
   26584605551163447059180953958340362240,
   10633892419537467648198290959513944064,
   37218510647129545755664667691414716416,
   11150452353069288593792352942758296140382208,
   16725702455645742055138168058671593435430912,
   39026444995801503262838969353166252060704768,
   11692096726582616209646984657374213375584087572480,
   17538153452456648241282780303313456368456650719232,
   36238954196923681769882042010853395197329408,
   82234517648316215261800998423154844227338240,
   23384061042555748672989678641332232803014915653632,
   35076075534729713861676319150131724366976647168000,
   40922045845310477340219408410377383229374330830848,
   12259976018979236078717072996551822793281974109900636160,
   27876596113970110700277280197371367849459712,
   289910820084449855274937939067671271757053952,
   635572354713718523080094853120812215158439936,
   187073369219312418222056160185718776947712555220992,
   561219249075270055792747403421821216585545280389504,
   561218200940469037849238530129357759608101839831176,
   280608375697477720176105870936672501810417868210204,
   93536288770328351527790151460292949617390051655740,
   5702401331140147975719476761597707288620,
   5699747846891415902540539184199854194708,
   19055834622459920622519264025918073471000,
   5709009826664952335419894303031620368928344124,
   19981467697886042089156125910408172463980550244,
   5986316415500871435744790726512441237726195561273344,
   8563486156235766892260570740997858167057553408,
   7605910854924300852164372207616]

/-- Generation 34 of the demonstration run: a beehive in rows 0 to 2 and a block
in rows 4 and 5. -/
def demoStill : Nat :=
  7605910854924300852164372207616

/-- The `Live` cells of generation 34 of the demonstration run. -/
def demoStillPts : List (Int × Int) :=
  [(11, 0), (12, 0), (10, 1), (13, 1), (11, 2), (12, 2), (1, 4), (2, 4), (1, 5), (2, 5)]

/-- How a run of `main` ends when its loop is given a bounded number of
iterations: `main` returns after so many generations, a panic, or the loop is
still running when the iterations are used up. -/
inductive Outcome where
  | exited (generations : Nat)
  | panicked
  | running
deriving DecidableEq, Repr

/-- The loop of `main`, `for !life.Over() { life.Dump(); life = life.NextGen();
time.Sleep(sleep) }`, run for at most `fuel` iterations; `n` counts the
generations so far. -/
def mainLoop : Nat → Nat → Life → Outcome
  | 0, _, _ => Outcome.running
  | fuel + 1, n, life =>
    if life.Over then Outcome.exited n
    else
      match life.Dump with
      | none => Outcome.panicked
      | some _ =>
        match life.NextGen with
        | none => Outcome.panicked
        | some next => mainLoop fuel (n + 1) next

/-- Go `func main()`, its loop run for at most `fuel` iterations. -/
def mainRun (fuel : Nat) : Outcome :=
  match demoGrid with
  | none => Outcome.panicked
  | some life => mainLoop fuel 0 life

/-! ## Transposition -/

/-- The grid `T(g)` of width `g.height` and height `g.width` whose cell `(y,x)`
is the cell `(x,y)` of `g`. -/
def Life.transpose (g : Life) : Life :=
  { Cells := (List.range g.Cells.length).map (fun (k : Nat) =>
      (g.cell ((k : Int) / g.height) ((k : Int) % g.height)).getD Dead),
    width := g.height, height := g.width }

/-- A 3x2 grid with `Live` cells at `(1,0)`, `(2,0)` and `(0,1)`. -/
def sampleGrid3x2 : Life :=
  { Cells := [Dead, Live, Live, Live, Dead, Dead], width := 3, height := 2 }

/-! ## Index arithmetic -/

theorem wrap64_of_range {z : Int} (h0 : -9223372036854775808 ≤ z)
    (h1 : z < 9223372036854775808) : wrap64 z = z := by
  unfold wrap64; omega

theorem wrap64_range (z : Int) :
    -9223372036854775808 ≤ wrap64 z ∧ wrap64 z < 9223372036854775808 := by
  unfold wrap64; omega

theorem wrap64_add_wrap64 (a b : Int) : wrap64 (wrap64 a + b) = wrap64 (a + b) := by
  unfold wrap64; omega

theorem Life.index_eq_wrap (g : Life) (i j : Int) :
    g.index i j = wrap64 (j * g.width + i) := by
  unfold Life.index; exact wrap64_add_wrap64 _ _

theorem maxAlloc_lt : maxAlloc < 9223372036854775808 := by
  unfold maxAlloc; omega

theorem index_bounds {w h x y : Int} (hx0 : 0 ≤ x) (hxw : x < w) (hy0 : 0 ≤ y) (hyh : y < h) :
    0 ≤ y * w + x ∧ y * w + x < w * h := by
  constructor
  · have : 0 ≤ y * w := Int.mul_nonneg hy0 (by omega)
    omega
  · have h1 : (y + 1) * w ≤ h * w := Int.mul_le_mul_of_nonneg_right (by omega) (by omega)
    have h2 : (y + 1) * w = y * w + w := by ring
    have h3 : h * w = w * h := by ring
    omega

theorem readCell_of_lt {cells : List Status} {k : Int} (h0 : 0 ≤ k)
    (hk : k < (cells.length : Int)) : ∃ s, readCell cells k = some s ∧ s ∈ cells := by
  have hlt : k.toNat < cells.length := by omega
  refine ⟨cells.get ⟨k.toNat, hlt⟩, ?_, List.get_mem _ _ _⟩
  simp [readCell, h0, List.get?_eq_get hlt]

theorem Life.cell_of_inGrid {g : Life} (hv : g.Valid) {x y : Int} (hin : g.InGrid x y) :
    ∃ s, g.cell x y = some s ∧ s ∈ g.Cells := by
  obtain ⟨hx0, hxw, hy0, hyh⟩ := hin
  have hb := index_bounds hx0 hxw hy0 hyh
  exact readCell_of_lt hb.1 (by rw [hv.1]; exact hb.2)

theorem Life.index_of_inGrid {g : Life} (hv : g.Valid) {x y : Int} (hin : g.InGrid x y) :
    g.index x y = y * g.width + x := by
  obtain ⟨hx0, hxw, hy0, hyh⟩ := hin
  have hb := index_bounds hx0 hxw hy0 hyh
  have hlen := hv.1
  have hmax := hv.2
  have hlt := maxAlloc_lt
  rw [Life.index_eq_wrap]
  exact wrap64_of_range (by omega) (by omega)

theorem Life.countStep_eq {g : Life} (hv : g.Valid) (i j c : Int) (off : Int × Int) :
    g.countStep i j c off = some (c + if g.liveAt i j off then 1 else 0) := by
  by_cases hin : g.InGrid (i + off.1) (j + off.2)
  · obtain ⟨s, hs, -⟩ := Life.cell_of_inGrid hv hin
    have hcond : ¬ (i + off.1 < 0 ∨ i + off.1 ≥ g.width ∨ j + off.2 < 0 ∨ j + off.2 ≥ g.height) := by
      unfold Life.InGrid at hin; omega
    have hs' : readCell g.Cells (g.index (i + off.1) (j + off.2)) = some s := by
      rw [Life.index_of_inGrid hv hin]; exact hs
    by_cases hl : s = Live
    · simp [Life.countStep, hcond, hs', hl, Life.liveAt, hin, hs]
    · simp [Life.countStep, hcond, hs', hl, Life.liveAt, hin, hs]
  · have hcond : (i + off.1 < 0 ∨ i + off.1 ≥ g.width ∨ j + off.2 < 0 ∨ j + off.2 ≥ g.height) := by
      unfold Life.InGrid at hin; omega
    simp [Life.countStep, hcond, Life.liveAt, hin]

theorem Life.countFold_eq {g : Life} (hv : g.Valid) (i j : Int) (offs : List (Int × Int)) (c : Int) :
    offs.foldlM (g.countStep i j) c = some (c + ((offs.filter (g.liveAt i j)).length : Int)) := by
  induction offs generalizing c with
  | nil => simp
  | cons off rest ih =>
    rw [List.foldlM_cons, Life.countStep_eq hv]
    simp only [Option.some_bind, Option.bind_eq_bind]
    rw [ih]
    by_cases hl : g.liveAt i j off
    · simp [hl, List.filter_cons]; ring
    · simp [hl, List.filter_cons]

theorem Life.countLoop_eq {g : Life} (hv : g.Valid) (i j : Int) :
    g.countLoop i j = some (g.liveNeighbours i j : Int) := by
  have := Life.countFold_eq hv i j offsets 0
  simpa [Life.countLoop, Life.liveNeighbours, Life.liveAt] using this

theorem index_decode {w h k : Int} (hw : 0 < w) (hk0 : 0 ≤ k) (hk : k < w * h) :
    0 ≤ k % w ∧ k % w < w ∧ 0 ≤ k / w ∧ k / w < h ∧ k / w * w + k % w = k := by
  refine ⟨Int.emod_nonneg _ (by omega), Int.emod_lt_of_pos _ hw, Int.ediv_nonneg hk0 (by omega),
    ?_, ?_⟩
  · apply Int.ediv_lt_of_lt_mul hw
    rw [Int.mul_comm]; exact hk
  · have := Int.ediv_add_emod k w
    rw [Int.mul_comm]; exact this

theorem index_encode {w x : Int} (y : Int) (hx0 : 0 ≤ x) (hxw : x < w) :
    (y * w + x) % w = x ∧ (y * w + x) / w = y := by
  have hw : w ≠ 0 := by omega
  constructor
  · rw [Int.add_comm, Int.add_mul_emod_self]
    exact Int.emod_eq_of_lt hx0 hxw
  · rw [Int.add_comm, Int.add_mul_ediv_right _ _ hw, Int.ediv_eq_zero_of_lt hx0 hxw]
    simp

theorem Life.nextStatus_eq {g : Life} (hv : g.Valid) {x y : Int} (hin : g.InGrid x y) :
    ∃ s, g.cell x y = some s ∧ s ∈ g.Cells ∧
      g.nextStatus x y = some (switchStatus s (g.liveNeighbours x y)) := by
  obtain ⟨s, hs, hmem⟩ := Life.cell_of_inGrid hv hin
  refine ⟨s, hs, hmem, ?_⟩
  have hs' : readCell g.Cells (g.index x y) = some s := by
    rw [Life.index_of_inGrid hv hin]; exact hs
  simp [Life.nextStatus, Life.countLoop_eq hv, hs']

theorem genBody_inv {g : Life} (hv : g.Valid) {a b : Int} (ha0 : 0 ≤ a) (haw : a < g.width)
    (hb0 : 0 ≤ b) (hbh : b < g.height) {σ : GenState} (hσ : GenInv g a b σ) :
    ∃ σ', genBody σ a b = some σ' ∧ GenInv g a (b + 1) σ' := by
  obtain ⟨hl, hw, hh, hlen, hcells⟩ := hσ
  obtain ⟨s, -, -, hns⟩ := Life.nextStatus_eq hv (x := a) (y := b) ⟨ha0, haw, hb0, hbh⟩
  have hb := index_bounds ha0 haw hb0 hbh
  have henc := index_encode b ha0 haw
  have hidx : (b * g.width + a).toNat < σ.next.Cells.length := by
    rw [hlen]; have := hv.1; omega
  let cells := List.set σ.next.Cells (b * g.width + a).toNat
    (switchStatus s (g.liveNeighbours a b))
  refine ⟨{ σ with next := { σ.next with Cells := cells } }, ?_, hl, hw, hh,
    by simpa [cells] using hlen, ?_⟩
  · have hidxI : b * g.width + a < (σ.next.Cells.length : Int) := by omega
    have hix : g.index a b = b * g.width + a :=
      Life.index_of_inGrid hv ⟨ha0, haw, hb0, hbh⟩
    simp [genBody, hl, hns, writeCell, hix, hb.1, hidxI, cells]
  · intro k hk
    simp only [cells, List.get?_eq_getElem?, List.getElem?_set]
    have hk' := hcells k hk
    simp only [List.get?_eq_getElem?] at hk'
    by_cases hkeq : (b * g.width + a).toNat = k
    · have hkint : (k : Int) = b * g.width + a := by omega
      have hlt : k < σ.next.Cells.length := by omega
      have hw0 : 0 < g.width := by omega
      simp [hkeq, hlt, Life.expected, hkint, henc.1, henc.2, hns, hw0]
    · have hne : ¬ ((k : Int) % g.width = a ∧ (k : Int) / g.width = b) := by
        rintro ⟨h1, h2⟩
        have := Int.ediv_add_emod (k : Int) g.width
        rw [h1, h2, Int.mul_comm] at this
        omega
      rw [if_neg hkeq, hk']
      have : ((k : Int) % g.width < a ∨ ((k : Int) % g.width = a ∧ (k : Int) / g.width < b + 1)) ↔
          ((k : Int) % g.width < a ∨ ((k : Int) % g.width = a ∧ (k : Int) / g.width < b)) := by
        constructor
        · rintro (h | ⟨h1, h2⟩)
          · exact Or.inl h
          · exact Or.inr ⟨h1, by
              rcases lt_or_ge ((k : Int) / g.width) b with h3 | h3
              · exact h3
              · exact absurd ⟨h1, by omega⟩ hne⟩
        · rintro (h | ⟨h1, h2⟩)
          · exact Or.inl h
          · exact Or.inr ⟨h1, by omega⟩
      simp only [Life.expected, this]

theorem genInner_fold {g : Life} (hv : g.Valid) {a : Int} (ha0 : 0 ≤ a) (haw : a < g.width)
    (n : Nat) (hn : n ≤ g.height.toNat) {σ : GenState} (hσ : GenInv g a 0 σ) :
    ∃ σ', (List.range n).foldlM (fun τ (j : Nat) => genBody τ a j) σ = some σ' ∧
      GenInv g a n σ' := by
  induction n with
  | zero => exact ⟨σ, by simp, by simpa using hσ⟩
  | succ n ih =>
    obtain ⟨τ, hτ, hinv⟩ := ih (by omega)
    obtain ⟨σ', hσ', hinv'⟩ := genBody_inv hv ha0 haw (b := n) (by omega) (by omega) hinv
    refine ⟨σ', ?_, by simpa using hinv'⟩
    rw [List.range_succ, List.foldlM_append, hτ]
    simp [hσ']

theorem genInner_inv {g : Life} (hv : g.Valid) {a : Int} (ha0 : 0 ≤ a) (haw : a < g.width)
    {σ : GenState} (hσ : GenInv g a 0 σ) :
    ∃ σ', genInner σ a = some σ' ∧ GenInv g (a + 1) 0 σ' := by
  have hl : σ.life = g := hσ.1
  have hh0 : 0 ≤ g.height := by
    by_contra hneg
    have hv' : (g.Cells.length : Int) = g.width * g.height := hv.1
    have : g.width * g.height < 0 := Int.mul_neg_of_pos_of_neg (by omega) (by omega)
    omega
  obtain ⟨σ', hrun, hl', hw', hh', hlen', hcells⟩ :=
    genInner_fold hv ha0 haw g.height.toNat (le_refl _) hσ
  refine ⟨σ', by simpa [genInner, hl] using hrun, hl', hw', hh', hlen', ?_⟩
  intro k hk
  rw [hcells k hk]
  have hkI : (k : Int) < g.width * g.height := by
    have := hv.1; omega
  obtain ⟨h1, h2, h3, h4, -⟩ := index_decode (by omega) (Int.natCast_nonneg k) hkI
  have hh1 : ((g.height.toNat : Nat) : Int) = g.height := by omega
  have : (((k : Int) % g.width < a ∨ ((k : Int) % g.width = a ∧
      (k : Int) / g.width < (g.height.toNat : Nat))) ↔
      ((k : Int) % g.width < a + 1 ∨ ((k : Int) % g.width = a + 1 ∧ (k : Int) / g.width < 0))) := by
    rw [hh1]; omega
  simp only [Life.expected, this]

theorem genOuter_fold {g : Life} (hv : g.Valid) (m : Nat) (hm : m ≤ g.width.toNat)
    {σ : GenState} (hσ : GenInv g 0 0 σ) :
    ∃ σ', (List.range m).foldlM (fun τ (i : Nat) => genInner τ i) σ = some σ' ∧
      GenInv g m 0 σ' := by
  induction m with
  | zero => exact ⟨σ, by simp, by simpa using hσ⟩
  | succ m ih =>
    obtain ⟨τ, hτ, hinv⟩ := ih (by omega)
    obtain ⟨σ', hσ', hinv'⟩ := genInner_inv hv (a := m) (by omega) (by omega) hinv
    refine ⟨σ', ?_, by simpa using hinv'⟩
    rw [List.range_succ, List.foldlM_append, hτ]
    simp [hσ']

theorem Life.NextGenRun_spec {g : Life} (hv : g.Valid) :
    ∃ n : Life, g.NextGenRun = some { life := g, next := n } ∧ n.width = g.width ∧
      n.height = g.height ∧ n.Cells.length = g.Cells.length ∧
      ∀ k : Nat, k < g.Cells.length → n.Cells.get? k = some (g.nextCell k) := by
  have hv' : (g.Cells.length : Int) = g.width * g.height := hv.1
  have hmax : (g.Cells.length : Int) ≤ maxAlloc := hv.2
  let cells0 : List Status := List.replicate (g.width * g.height).toNat Dead
  have hnew : NewLife g.width g.height =
      some { Cells := cells0, width := g.width, height := g.height } := by
    have h0 : 0 ≤ g.width * g.height := by omega
    have h1 : g.width * g.height ≤ maxAlloc := by omega
    have hlt := maxAlloc_lt
    have hwr : wrap64 (g.width * g.height) = g.width * g.height :=
      wrap64_of_range (by omega) (by omega)
    simp [NewLife, makeCells, hwr, h0, h1, cells0]
  have hlen0 : (g.width * g.height).toNat = g.Cells.length := by omega
  have hinit : GenInv g 0 0
      { life := g, next := { Cells := cells0, width := g.width, height := g.height } } := by
    refine ⟨rfl, rfl, rfl, by simp [cells0, hlen0], ?_⟩
    intro k hk
    have hcond : ¬ (0 < g.width ∧ ((k : Int) % g.width < 0 ∨
        ((k : Int) % g.width = 0 ∧ (k : Int) / g.width < 0))) := by
      rintro ⟨hw, h | ⟨-, h⟩⟩
      · have := Int.emod_nonneg (k : Int) (show g.width ≠ 0 by omega); omega
      · have := Int.ediv_nonneg (Int.natCast_nonneg k) (show 0 ≤ g.width by omega); omega
    simp only [Life.expected, if_neg hcond]
    simp [cells0, List.getElem?_replicate, hlen0, hk]
  obtain ⟨σ', hrun, hl, hw, hh, hlen, hcells⟩ :=
    genOuter_fold hv g.width.toNat (le_refl _) hinit
  obtain ⟨l', n⟩ := σ'
  simp only at hl hw hh hlen hcells
  subst hl
  refine ⟨n, ?_, hw, hh, hlen, ?_⟩
  · simp only [Life.NextGenRun, hnew, genOuter]
    simpa using hrun
  · intro k hk
    rw [hcells k hk]
    congr 1
    unfold Life.expected Life.nextCell
    by_cases hw0 : 0 < l'.width
    · have hkI : (k : Int) < l'.width * l'.height := by omega
      obtain ⟨h1, h2, -⟩ := index_decode hw0 (Int.natCast_nonneg k) hkI
      have hc : 0 < l'.width ∧ ((k : Int) % l'.width < (l'.width.toNat : Nat) ∨
          ((k : Int) % l'.width = (l'.width.toNat : Nat) ∧ (k : Int) / l'.width < 0)) :=
        ⟨hw0, Or.inl (by omega)⟩
      rw [if_pos hc, if_pos hw0]
    · simp [hw0]

theorem Life.NextGen_spec {g : Life} (hv : g.Valid) :
    ∃ n : Life, g.NextGen = some n ∧ n.width = g.width ∧ n.height = g.height ∧
      n.Cells.length = g.Cells.length ∧
      ∀ k : Nat, k < g.Cells.length → n.Cells.get? k = some (g.nextCell k) := by
  obtain ⟨n, hrun, hrest⟩ := Life.NextGenRun_spec hv
  exact ⟨n, by simp [Life.NextGen, hrun], hrest⟩

theorem Life.NextGen_valid {g n : Life} (hv : g.Valid) (hn : g.NextGen = some n) : n.Valid := by
  obtain ⟨n', hn', hw, hh, hlen, -⟩ := Life.NextGen_spec hv
  rw [hn] at hn'
  cases hn'
  unfold Life.Valid at hv ⊢
  rw [hlen, hw, hh]; exact hv

theorem Life.NextGen_cell {g n : Life} (hv : g.Valid) (hn : g.NextGen = some n) {x y : Int}
    (hin : g.InGrid x y) : n.cell x y = g.nextStatus x y := by
  obtain ⟨n', hn', hw, -, -, hcells⟩ := Life.NextGen_spec hv
  rw [hn] at hn'
  cases hn'
  obtain ⟨hx0, hxw, hy0, hyh⟩ := hin
  have hb := index_bounds hx0 hxw hy0 hyh
  have henc := index_encode y hx0 hxw
  have hv' : (g.Cells.length : Int) = g.width * g.height := hv.1
  have hk : (y * g.width + x).toNat < g.Cells.length := by omega
  have hcast : (((y * g.width + x).toNat : Nat) : Int) = y * g.width + x := by omega
  obtain ⟨s, -, -, hns⟩ := Life.nextStatus_eq hv (x := x) (y := y) ⟨hx0, hxw, hy0, hyh⟩
  have hw0 : 0 < g.width := by omega
  simp only [Life.cell, readCell, hw, if_pos hb.1, hcells _ hk, Life.nextCell, hcast, henc.1,
    henc.2, if_pos hw0, hns, Option.getD_some]

theorem overLoop_true_iff (cells : List Status) :
    overLoop cells = true ↔ ∀ s ∈ cells, s ≠ Live := by
  induction cells with
  | nil => simp [overLoop]
  | cons v rest ih =>
    by_cases hv : v = Live
    · simp [overLoop, hv]
    · simp [overLoop, hv, ih]

theorem overLoop_false_iff (cells : List Status) :
    overLoop cells = false ↔ ∃ s ∈ cells, s = Live := by
  have h := overLoop_true_iff cells
  constructor
  · intro hf
    by_contra hne
    have : overLoop cells = true := h.mpr (fun s hs hl => hne ⟨s, hs, hl⟩)
    rw [hf] at this
    exact Bool.noConfusion this
  · rintro ⟨s, hs, hl⟩
    cases hov : overLoop cells with
    | false => rfl
    | true => exact absurd hl (h.mp hov s hs)

theorem index_injective {w x y x' y' : Int} (hx0 : 0 ≤ x) (hxw : x < w) (hx0' : 0 ≤ x')
    (hxw' : x' < w) (h : y' * w + x' = y * w + x) : x' = x ∧ y' = y := by
  have h1 := index_encode y hx0 hxw
  have h2 := index_encode y' hx0' hxw'
  rw [h] at h2
  exact ⟨h2.1.symm.trans h1.1, h2.2.symm.trans h1.2⟩

theorem Life.Seed_eq {g : Life} (hv : g.Valid) {x y : Int} (hin : g.InGrid x y) :
    g.Seed x y = (some (), { g with Cells := g.Cells.set (y * g.width + x).toNat Live }) := by
  obtain ⟨hx0, hxw, hy0, hyh⟩ := hin
  have hb := index_bounds hx0 hxw hy0 hyh
  have hv' : (g.Cells.length : Int) = g.width * g.height := hv.1
  have hk : (y * g.width + x).toNat < g.Cells.length := by omega
  have hix : g.index x y = y * g.width + x := Life.index_of_inGrid hv ⟨hx0, hxw, hy0, hyh⟩
  simp [Life.Seed, hix, writeCell, hb.1, hk]

theorem Life.cell_set {g : Life} (hv : g.Valid) {x y : Int} (hin : g.InGrid x y) (v : Status)
    {x' y' : Int} (hin' : g.InGrid x' y') :
    readCell (g.Cells.set (y * g.width + x).toNat v) (y' * g.width + x') =
      if x' = x ∧ y' = y then some v else g.cell x' y' := by
  obtain ⟨hx0, hxw, hy0, hyh⟩ := hin
  obtain ⟨hx0', hxw', hy0', hyh'⟩ := hin'
  have hb := index_bounds hx0 hxw hy0 hyh
  have hb' := index_bounds hx0' hxw' hy0' hyh'
  have hv' : (g.Cells.length : Int) = g.width * g.height := hv.1
  have hk : (y * g.width + x).toNat < g.Cells.length := by omega
  by_cases heq : x' = x ∧ y' = y
  · obtain ⟨rfl, rfl⟩ := heq
    simp [readCell, hb.1, List.getElem?_set, hk]
  · have hne : (y * g.width + x).toNat ≠ (y' * g.width + x').toNat := by
      intro h
      exact heq (index_injective hx0 hxw hx0' hxw' (by omega))
    simp [readCell, hb'.1, List.getElem?_set, hne, heq, Life.cell]

theorem readCell_mem {cells : List Status} {k : Int} {s : Status}
    (h : readCell cells k = some s) : s ∈ cells := by
  unfold readCell at h
  split at h
  · exact List.get?_mem h
  · exact Option.noConfusion h

theorem Life.liveNeighbours_eq_zero {g : Life} (hno : ∀ s ∈ g.Cells, s ≠ Live) (x y : Int) :
    g.liveNeighbours x y = 0 := by
  unfold Life.liveNeighbours
  rw [List.length_eq_zero, List.filter_eq_nil_iff]
  intro off _ hlive
  unfold Life.liveAt at hlive
  simp only [Bool.and_eq_true, decide_eq_true_eq] at hlive
  exact hno Live (readCell_mem hlive.2) rfl

theorem Life.liveNeighbours_congr {g1 g2 : Life} (hw : g1.width = g2.width)
    (hh : g1.height = g2.height) {x y : Int} (hagree : g1.AgreeAround g2 x y) :
    g1.liveNeighbours x y = g2.liveNeighbours x y := by
  unfold Life.liveNeighbours
  congr 1
  apply List.filter_congr
  intro off hoff
  have hmem : off.1 ∈ ([-1, 0, 1] : List Int) ∧ off.2 ∈ ([-1, 0, 1] : List Int) := by
    simp only [offsets, List.mem_cons, List.mem_singleton, List.not_mem_nil, or_false] at hoff
    rcases hoff with rfl | rfl | rfl | rfl | rfl | rfl | rfl | rfl <;> simp
  unfold Life.liveAt
  by_cases hin : g1.InGrid (x + off.1) (y + off.2)
  · have hin2 : g2.InGrid (x + off.1) (y + off.2) := by
      unfold Life.InGrid at hin ⊢; rw [← hw, ← hh]; exact hin
    rw [hagree off.1 hmem.1 off.2 hmem.2 hin]
    simp [hin, hin2]
  · have hin2 : ¬ g2.InGrid (x + off.1) (y + off.2) := by
      unfold Life.InGrid at hin ⊢; rw [← hw, ← hh]; exact hin
    simp [hin, hin2]

theorem Life.nextStatus_congr {g1 g2 : Life} (hv1 : g1.Valid) (hv2 : g2.Valid)
    (hw : g1.width = g2.width) (hh : g1.height = g2.height) {x y : Int}
    (hin : g1.InGrid x y) (hagree : g1.AgreeAround g2 x y) :
    g1.nextStatus x y = g2.nextStatus x y := by
  have hin2 : g2.InGrid x y := by
    unfold Life.InGrid at hin ⊢; rw [← hw, ← hh]; exact hin
  obtain ⟨s1, hs1, -, hn1⟩ := Life.nextStatus_eq hv1 hin
  obtain ⟨s2, hs2, -, hn2⟩ := Life.nextStatus_eq hv2 hin2
  have h00 := hagree 0 (by simp) 0 (by simp) (by simpa using hin)
  simp only [add_zero] at h00
  rw [hs1, hs2] at h00
  cases h00
  rw [hn1, hn2, Life.liveNeighbours_congr hw hh hagree]

theorem Life.nextGen_cells_mem {g n : Life} (hv : g.Valid) (hn : g.NextGen = some n)
    {s : Status} (hs : s ∈ n.Cells) :
    s = Dead ∨ ∃ x y, g.InGrid x y ∧ g.nextStatus x y = some s := by
  obtain ⟨n', hn', -, -, hlen, hcells⟩ := Life.NextGen_spec hv
  rw [hn] at hn'
  cases hn'
  obtain ⟨k, hk, hks⟩ := List.getElem_of_mem hs
  have hk' : k < g.Cells.length := by omega
  have hget := hcells k hk'
  rw [List.get?_eq_getElem?, List.getElem?_eq_getElem hk, hks] at hget
  injection hget with hget
  rw [hget]
  have hv' : (g.Cells.length : Int) = g.width * g.height := hv.1
  unfold Life.nextCell
  by_cases hw0 : 0 < g.width
  · obtain ⟨h1, h2, h3, h4, -⟩ :=
      index_decode hw0 (Int.natCast_nonneg k) (show (k : Int) < g.width * g.height by omega)
    obtain ⟨s0, -, -, hns⟩ := Life.nextStatus_eq hv
      (x := (k : Int) % g.width) (y := (k : Int) / g.width) ⟨h1, h2, h3, h4⟩
    right
    refine ⟨(k : Int) % g.width, (k : Int) / g.width, ⟨h1, h2, h3, h4⟩, ?_⟩
    simp [hw0, hns]
  · left; simp [hw0]

theorem Life.ext_cells {g1 g2 : Life} (hv1 : g1.Valid) (hv2 : g2.Valid)
    (hw : g1.width = g2.width) (hh : g1.height = g2.height) (hpos : 0 ≤ g1.width)
    (hcell : ∀ x y : Int, g1.InGrid x y → g1.cell x y = g2.cell x y) : g1 = g2 := by
  have hv1' : (g1.Cells.length : Int) = g1.width * g1.height := hv1.1
  have hv2' : (g2.Cells.length : Int) = g2.width * g2.height := hv2.1
  have hlen : g1.Cells.length = g2.Cells.length := by
    rw [hw, hh] at hv1'; omega
  have hcells : g1.Cells = g2.Cells := by
    apply List.ext_get?
    intro k
    by_cases hk : k < g1.Cells.length
    · have hw0 : 0 < g1.width := by
        by_contra hneg
        have h0 : g1.width = 0 := by omega
        rw [h0, Int.zero_mul] at hv1'
        omega
      obtain ⟨h1, h2, h3, h4, h5⟩ := index_decode hw0 (Int.natCast_nonneg k)
        (show (k : Int) < g1.width * g1.height by omega)
      have := hcell _ _ ⟨h1, h2, h3, h4⟩
      unfold Life.cell at this
      rw [← hw, h5] at this
      simpa [readCell] using this
    · simp only [List.get?_eq_getElem?]
      rw [List.getElem?_eq_none (by omega), List.getElem?_eq_none (by omega)]
  cases g1; cases g2
  simp only [Life.mk.injEq]
  exact ⟨hcells, hw, hh⟩

theorem Life.seed_valid {g : Life} (hv : g.Valid) {x y : Int} (hin : g.InGrid x y) :
    (g.Seed x y).2.Valid ∧ (g.Seed x y).2.width = g.width ∧
      (g.Seed x y).2.height = g.height := by
  rw [Life.Seed_eq hv hin]
  refine ⟨?_, rfl, rfl⟩
  unfold Life.Valid at hv ⊢
  simpa using hv

theorem seedAll_spec (pts : List (Int × Int)) :
    ∀ g : Life, g.Valid → (∀ p ∈ pts, g.InGrid p.1 p.2) →
      ∃ g' : Life, seedAll g pts = some g' ∧ g'.Valid ∧ g'.width = g.width ∧
        g'.height = g.height ∧
        ∀ x y : Int, g.InGrid x y →
          g'.cell x y = if (x, y) ∈ pts then some Live else g.cell x y := by
  induction pts with
  | nil =>
    intro g hv _
    exact ⟨g, rfl, hv, rfl, rfl, fun x y _ => by simp⟩
  | cons p ps ih =>
    intro g hv hpts
    have hp : g.InGrid p.1 p.2 := hpts p (List.mem_cons_self _ _)
    obtain ⟨hv1, hw1, hh1⟩ := Life.seed_valid hv hp
    have hin1 : ∀ x y : Int, g.InGrid x y → (g.Seed p.1 p.2).2.InGrid x y := by
      intro x y h
      unfold Life.InGrid at h ⊢
      rw [hw1, hh1]; exact h
    obtain ⟨g', hg', hv', hw', hh', hcell⟩ := ih (g.Seed p.1 p.2).2 hv1
      (fun q hq => hin1 _ _ (hpts q (List.mem_cons_of_mem _ hq)))
    refine ⟨g', ?_, hv', hw'.trans hw1, hh'.trans hh1, ?_⟩
    · have hs := Life.Seed_eq hv hp
      rw [hs] at hg'
      simp only [seedAll, hs]
      exact hg'
    · intro x y hin
      rw [hcell x y (hin1 x y hin)]
      have hset := Life.cell_set hv hp Live hin
      have hcell1 : (g.Seed p.1 p.2).2.cell x y =
          if x = p.1 ∧ y = p.2 then some Live else g.cell x y := by
        rw [Life.Seed_eq hv hp]
        simpa [Life.cell] using hset
      rw [hcell1]
      by_cases hps : (x, y) ∈ ps
      · simp [hps]
      · by_cases hxy : x = p.1 ∧ y = p.2
        · have : (x, y) = p := by rw [hxy.1, hxy.2]
          simp [hps, hxy, this]
        · have : ¬ (x, y) = p := fun h => hxy (by rw [← h]; exact ⟨rfl, rfl⟩)
          simp [hps, hxy, this]

theorem patternGrid_spec {w h : Int} (hw : 0 ≤ w) (hh : 0 ≤ h) (hfit : w * h ≤ maxAlloc)
    {pts : List (Int × Int)}
    (hpts : ∀ p ∈ pts, 0 ≤ p.1 ∧ p.1 < w ∧ 0 ≤ p.2 ∧ p.2 < h) :
    ∃ g : Life, patternGrid w h pts = some g ∧ g.Valid ∧ g.width = w ∧ g.height = h ∧
      ∀ x y : Int, g.InGrid x y → g.cell x y = some (patternStatus pts x y) := by
  have hp : 0 ≤ w * h := Int.mul_nonneg hw hh
  let g0 : Life := { Cells := List.replicate (w * h).toNat Dead, width := w, height := h }
  have hwr : wrap64 (w * h) = w * h :=
    wrap64_of_range (by omega) (by have := maxAlloc_lt; omega)
  have hnew : NewLife w h = some g0 := by simp [NewLife, makeCells, hwr, hp, hfit, g0]
  have hv0 : g0.Valid := by
    simp only [Life.Valid, g0, List.length_replicate]; omega
  obtain ⟨g, hg, hv, hgw, hgh, hcell⟩ := seedAll_spec pts g0 hv0 hpts
  refine ⟨g, by simp [patternGrid, hnew, hg], hv, hgw, hgh, ?_⟩
  intro x y hin
  have hin0 : g0.InGrid x y := by
    unfold Life.InGrid at hin ⊢; rw [hgw, hgh] at hin; exact hin
  rw [hcell x y hin0]
  unfold patternStatus
  by_cases hmem : (x, y) ∈ pts
  · simp [hmem]
  · obtain ⟨s, hs, hsmem⟩ := Life.cell_of_inGrid hv0 hin0
    have : s = Dead := List.eq_of_mem_replicate hsmem
    simp [hmem, hs, this]

theorem Life.liveNeighbours_pattern {g : Life} {pts : List (Int × Int)}
    (hpts : ∀ p ∈ pts, g.InGrid p.1 p.2)
    (hcell : ∀ x y : Int, g.InGrid x y → g.cell x y = some (patternStatus pts x y))
    (x y : Int) : g.liveNeighbours x y = patternCount pts x y := by
  unfold Life.liveNeighbours patternCount
  congr 1
  apply List.filter_congr
  intro off _
  unfold Life.liveAt
  by_cases hmem : (x + off.1, y + off.2) ∈ pts
  · have hin := hpts _ hmem
    simp only at hin
    simp [hin, hcell _ _ hin, patternStatus, hmem]
  · by_cases hin : g.InGrid (x + off.1) (y + off.2)
    · have hDL : ¬ (Dead = Live) := by decide
      simp [hin, hcell _ _ hin, patternStatus, hmem, hDL]
    · simp [hin, hmem]

theorem Life.nextGen_pattern {g g' : Life} {pts pts' : List (Int × Int)} (hv : g.Valid)
    (hv' : g'.Valid) (hw : g'.width = g.width) (hh : g'.height = g.height)
    (hpos : 0 ≤ g.width) (hpts : ∀ p ∈ pts, g.InGrid p.1 p.2)
    (hcell : ∀ x y : Int, g.InGrid x y → g.cell x y = some (patternStatus pts x y))
    (hcell' : ∀ x y : Int, g'.InGrid x y → g'.cell x y = some (patternStatus pts' x y))
    (hstep : ∀ x y : Int, switchStatus (patternStatus pts x y) (patternCount pts x y) =
      patternStatus pts' x y) :
    g.NextGen = some g' := by
  obtain ⟨n, hn, hnw, hnh, -⟩ := Life.NextGen_spec hv
  rw [hn]
  congr 1
  apply Life.ext_cells (Life.NextGen_valid hv hn) hv' (hnw.trans hw.symm) (hnh.trans hh.symm)
    (by rw [hnw]; exact hpos)
  intro x y hin
  have hing : g.InGrid x y := by
    unfold Life.InGrid at hin ⊢; rw [hnw, hnh] at hin; exact hin
  have hing' : g'.InGrid x y := by
    unfold Life.InGrid at hing ⊢; rw [hw, hh]; exact hing
  rw [Life.NextGen_cell hv hn hing, hcell' x y hing']
  obtain ⟨s, hs, -, hns⟩ := Life.nextStatus_eq hv hing
  rw [hcell x y hing] at hs
  injection hs with hs
  rw [hns, ← hs, Life.liveNeighbours_pattern hpts hcell, hstep]

theorem blinker_row_step (x y : Int) :
    switchStatus (patternStatus blinkerRow x y) (patternCount blinkerRow x y) =
      patternStatus blinkerCol x y := by
  by_cases hfar : x < 0 ∨ 4 < x ∨ y < 0 ∨ 4 < y
  · have hc : patternCount blinkerRow x y = 0 := by
      unfold patternCount
      rw [List.length_eq_zero, List.filter_eq_nil_iff]
      intro off hoff
      simp only [offsets, List.mem_cons, List.mem_singleton, List.not_mem_nil, or_false] at hoff
      simp only [blinkerRow, decide_eq_true_eq, List.mem_cons, List.mem_singleton,
        List.not_mem_nil, or_false, Prod.mk.injEq]
      rcases hoff with rfl | rfl | rfl | rfl | rfl | rfl | rfl | rfl <;> omega
    have hr : patternStatus blinkerRow x y = Dead := by
      unfold patternStatus
      rw [if_neg]
      simp only [blinkerRow, List.mem_cons, List.mem_singleton,
        List.not_mem_nil, or_false, Prod.mk.injEq]
      omega
    have hcol : patternStatus blinkerCol x y = Dead := by
      unfold patternStatus
      rw [if_neg]
      simp only [blinkerCol, List.mem_cons, List.mem_singleton,
        List.not_mem_nil, or_false, Prod.mk.injEq]
      omega
    rw [hc, hr, hcol]
    decide
  · have hx : x = 0 ∨ x = 1 ∨ x = 2 ∨ x = 3 ∨ x = 4 := by omega
    have hy : y = 0 ∨ y = 1 ∨ y = 2 ∨ y = 3 ∨ y = 4 := by omega
    rcases hx with rfl | rfl | rfl | rfl | rfl <;>
      rcases hy with rfl | rfl | rfl | rfl | rfl <;> decide

theorem blinker_col_step (x y : Int) :
    switchStatus (patternStatus blinkerCol x y) (patternCount blinkerCol x y) =
      patternStatus blinkerRow x y := by
  by_cases hfar : x < 0 ∨ 4 < x ∨ y < 0 ∨ 4 < y
  · have hc : patternCount blinkerCol x y = 0 := by
      unfold patternCount
      rw [List.length_eq_zero, List.filter_eq_nil_iff]
      intro off hoff
      simp only [offsets, List.mem_cons, List.mem_singleton, List.not_mem_nil, or_false] at hoff
      simp only [blinkerCol, decide_eq_true_eq, List.mem_cons, List.mem_singleton,
        List.not_mem_nil, or_false, Prod.mk.injEq]
      rcases hoff with rfl | rfl | rfl | rfl | rfl | rfl | rfl | rfl <;> omega
    have hr : patternStatus blinkerCol x y = Dead := by
      unfold patternStatus
      rw [if_neg]
      simp only [blinkerCol, List.mem_cons, List.mem_singleton,
        List.not_mem_nil, or_false, Prod.mk.injEq]
      omega
    have hrow2 : patternStatus blinkerRow x y = Dead := by
      unfold patternStatus
      rw [if_neg]
      simp only [blinkerRow, List.mem_cons, List.mem_singleton,
        List.not_mem_nil, or_false, Prod.mk.injEq]
      omega
    rw [hc, hr, hrow2]
    decide
  · have hx : x = 0 ∨ x = 1 ∨ x = 2 ∨ x = 3 ∨ x = 4 := by omega
    have hy : y = 0 ∨ y = 1 ∨ y = 2 ∨ y = 3 ∨ y = 4 := by omega
    rcases hx with rfl | rfl | rfl | rfl | rfl <;>
      rcases hy with rfl | rfl | rfl | rfl | rfl <;> decide

/-! ## The cell array's length and the two cell states are invariants -/

theorem NewLife_of_fit {w h : Int} (h0 : 0 ≤ w * h) (hfit : w * h ≤ maxAlloc) :
    NewLife w h =
      some { Cells := List.replicate (w * h).toNat Dead, width := w, height := h } := by
  have hwr : wrap64 (w * h) = w * h :=
    wrap64_of_range (by omega) (by have := maxAlloc_lt; omega)
  simp [NewLife, makeCells, hwr, h0, hfit]

theorem NewLife_length {w h : Int} {g : Life} (hg : NewLife w h = some g) :
    g.width = w ∧ g.height = h ∧ (g.Cells.length : Int) = wrap64 (w * h) ∧
      (g.Cells.length : Int) ≤ maxAlloc ∧ ∀ s ∈ g.Cells, s = Dead := by
  unfold NewLife makeCells at hg
  by_cases hp : 0 ≤ wrap64 (w * h) ∧ wrap64 (w * h) ≤ maxAlloc
  · simp only [if_pos hp, Option.bind_eq_bind, Option.some_bind, Option.some.injEq] at hg
    subst hg
    refine ⟨rfl, rfl, ?_, ?_, fun s hs => List.eq_of_mem_replicate hs⟩
    · simp only [List.length_replicate]; omega
    · simp only [List.length_replicate]; omega
  · simp [hp] at hg

theorem NewLife_valid_binary {w h : Int} {g : Life} (hg : NewLife w h = some g)
    (h0 : 0 ≤ w * h) (hfit : w * h ≤ maxAlloc) : g.Valid ∧ g.Binary := by
  rw [NewLife_of_fit h0 hfit] at hg
  injection hg with hg
  subst hg
  constructor
  · simp only [Life.Valid, List.length_replicate]; omega
  · intro s hs
    exact Or.inl (List.eq_of_mem_replicate hs)

theorem Life.seed_binary {g : Life} (hb : g.Binary) (x y : Int) : (g.Seed x y).2.Binary := by
  unfold Life.Seed writeCell
  split
  · next cells hc =>
    split at hc
    · injection hc with hc
      subst hc
      intro s hs
      rcases List.mem_or_eq_of_mem_set hs with h | h
      · exact hb s h
      · exact Or.inr h
    · exact Option.noConfusion hc
  · exact hb

theorem switchStatus_binary {s : Status} (hs : s = Dead ∨ s = Live) (c : Int) :
    switchStatus s c = Dead ∨ switchStatus s c = Live := by
  unfold switchStatus
  split_ifs
  · exact Or.inr rfl
  · exact Or.inl rfl
  · exact Or.inr rfl
  · exact hs

theorem Life.nextGen_binary {g n : Life} (hv : g.Valid) (hb : g.Binary)
    (hn : g.NextGen = some n) : n.Binary := by
  intro s hs
  rcases Life.nextGen_cells_mem hv hn hs with hd | ⟨x, y, hin, hns⟩
  · exact Or.inl hd
  · obtain ⟨s0, -, hmem, hns'⟩ := Life.nextStatus_eq hv hin
    rw [hns'] at hns
    injection hns with hns
    rw [← hns]
    exact switchStatus_binary (hb s0 hmem) _

theorem switchStatus_eq_live_iff (s : Status) (c : Nat) :
    switchStatus s c = Live ↔ (s = Live ∧ (c = 2 ∨ c = 3)) ∨ (s = Dead ∧ c = 3) := by
  have hDL : Dead ≠ Live := by decide
  unfold switchStatus
  by_cases hd : s = Dead
  · subst hd
    by_cases h3 : c = 3
    · simp [h3]
    · have h3' : ¬ ((c : Int) = 3) := by omega
      simp [h3, h3', hDL]
  · by_cases hl : s = Live
    · subst hl
      by_cases h23 : c = 2 ∨ c = 3
      · have hc : ¬ ((c : Int) < 2 ∨ (c : Int) > 3) := by omega
        simp only [hd, false_and, if_false, hc, and_false, true_and, if_true, h23, and_self,
          or_false]
      · have hc : ((c : Int) < 2 ∨ (c : Int) > 3) := by omega
        simp only [hd, false_and, if_false, hc, and_self, if_true, h23, and_false, or_self,
          iff_false]
        exact hDL
    · simp [hd, hl]

/-! ## Patterns: translation, the block and the single cell -/

theorem mem_shift_iff (pts : List (Int × Int)) (x y a b : Int) :
    (a, b) ∈ pts.map (fun p => (p.1 + x, p.2 + y)) ↔ (a - x, b - y) ∈ pts := by
  rw [List.mem_map]
  constructor
  · rintro ⟨p, hp, heq⟩
    have h1 : p.1 + x = a := congrArg Prod.fst heq
    have h2 : p.2 + y = b := congrArg Prod.snd heq
    have : (a - x, b - y) = p := by
      rw [← h1, ← h2]; simp
    rw [this]; exact hp
  · intro h
    exact ⟨(a - x, b - y), h, by simp⟩

theorem patternStatus_shift (pts : List (Int × Int)) (x y a b : Int) :
    patternStatus (pts.map (fun p => (p.1 + x, p.2 + y))) a b =
      patternStatus pts (a - x) (b - y) := by
  unfold patternStatus
  simp only [mem_shift_iff]

theorem patternCount_shift (pts : List (Int × Int)) (x y a b : Int) :
    patternCount (pts.map (fun p => (p.1 + x, p.2 + y))) a b =
      patternCount pts (a - x) (b - y) := by
  unfold patternCount
  congr 1
  apply List.filter_congr
  intro off _
  have h := mem_shift_iff pts x y (a + off.1) (b + off.2)
  have e1 : a + off.1 - x = a - x + off.1 := by ring
  have e2 : b + off.2 - y = b - y + off.2 := by ring
  rw [e1, e2] at h
  simp only [h]

theorem blockPts_eq_shift (x y : Int) :
    blockPts x y = (blockPts 0 0).map (fun p => (p.1 + x, p.2 + y)) := by
  simp [blockPts, Int.add_comm]

theorem patternCount_far {pts : List (Int × Int)} {lo hi : Int}
    (hpts : ∀ p ∈ pts, lo ≤ p.1 ∧ p.1 ≤ hi ∧ lo ≤ p.2 ∧ p.2 ≤ hi) {a b : Int}
    (hfar : a < lo - 1 ∨ hi + 1 < a ∨ b < lo - 1 ∨ hi + 1 < b) :
    patternCount pts a b = 0 ∧ patternStatus pts a b = Dead := by
  constructor
  · unfold patternCount
    rw [List.length_eq_zero, List.filter_eq_nil_iff]
    intro off hoff hmem
    simp only [decide_eq_true_eq] at hmem
    have hb := hpts _ hmem
    simp only at hb
    simp only [offsets, List.mem_cons, List.mem_singleton, List.not_mem_nil, or_false] at hoff
    rcases hoff with rfl | rfl | rfl | rfl | rfl | rfl | rfl | rfl <;> simp only at hb <;> omega
  · unfold patternStatus
    rw [if_neg]
    intro hmem
    have hb := hpts _ hmem
    simp only at hb
    omega

theorem block_step_origin (a b : Int) :
    switchStatus (patternStatus (blockPts 0 0) a b) (patternCount (blockPts 0 0) a b) =
      patternStatus (blockPts 0 0) a b := by
  have hpts : ∀ p ∈ blockPts 0 0, (0 : Int) ≤ p.1 ∧ p.1 ≤ 1 ∧ (0 : Int) ≤ p.2 ∧ p.2 ≤ 1 := by
    decide
  by_cases hfar : a < 0 - 1 ∨ 1 + 1 < a ∨ b < 0 - 1 ∨ 1 + 1 < b
  · obtain ⟨hc, hs⟩ := patternCount_far hpts hfar
    rw [hc, hs]; decide
  · have ha : a = -1 ∨ a = 0 ∨ a = 1 ∨ a = 2 := by omega
    have hb : b = -1 ∨ b = 0 ∨ b = 1 ∨ b = 2 := by omega
    rcases ha with rfl | rfl | rfl | rfl <;> rcases hb with rfl | rfl | rfl | rfl <;> decide

theorem block_step (x y a b : Int) :
    switchStatus (patternStatus (blockPts x y) a b) (patternCount (blockPts x y) a b) =
      patternStatus (blockPts x y) a b := by
  rw [blockPts_eq_shift, patternStatus_shift, patternCount_shift]
  exact block_step_origin _ _

theorem single_step (a b : Int) :
    switchStatus (patternStatus [(0, 0)] a b) (patternCount [(0, 0)] a b) = Dead := by
  have hpts : ∀ p ∈ ([(0, 0)] : List (Int × Int)),
      (0 : Int) ≤ p.1 ∧ p.1 ≤ 0 ∧ (0 : Int) ≤ p.2 ∧ p.2 ≤ 0 := by decide
  by_cases hfar : a < 0 - 1 ∨ 0 + 1 < a ∨ b < 0 - 1 ∨ 0 + 1 < b
  · obtain ⟨hc, hs⟩ := patternCount_far hpts hfar
    rw [hc, hs]; decide
  · have ha : a = -1 ∨ a = 0 ∨ a = 1 := by omega
    have hb : b = -1 ∨ b = 0 ∨ b = 1 := by omega
    rcases ha with rfl | rfl | rfl <;> rcases hb with rfl | rfl | rfl <;> decide

theorem Life.inGrid_congr {g g' : Life} (hw : g'.width = g.width) (hh : g'.height = g.height)
    {x y : Int} : g'.InGrid x y ↔ g.InGrid x y := by
  unfold Life.InGrid; rw [hw, hh]

theorem Life.seed_live_noop {g : Life} (hv : g.Valid) {x y : Int} (hin : g.InGrid x y)
    (hlive : g.cell x y = some Live) : g.Seed x y = (some (), g) := by
  rw [Life.Seed_eq hv hin]
  obtain ⟨hx0, hxw, hy0, hyh⟩ := hin
  have hb := index_bounds hx0 hxw hy0 hyh
  have hcells : g.Cells.set (y * g.width + x).toNat Live = g.Cells := by
    apply List.ext_get?
    intro k
    simp only [List.get?_eq_getElem?, List.getElem?_set]
    by_cases hk : (y * g.width + x).toNat = k
    · have hget : g.Cells[k]? = some Live := by
        have := hlive
        simp only [Life.cell, readCell, if_pos hb.1, List.get?_eq_getElem?, hk] at this
        exact this
      rw [if_pos hk, hget]
      have hlt : k < g.Cells.length := by
        by_contra hge
        rw [List.getElem?_eq_none (by omega)] at hget
        exact Option.noConfusion hget
      simp [hk, hlt]
    · rw [if_neg hk]
  rw [hcells]

theorem switchStatus_live_few {c : Int} (hc : c < 2) : switchStatus Live c = Dead := by
  have hLD : ¬ (Live = Dead) := by decide
  unfold switchStatus
  rw [if_neg (fun h => hLD h.1), if_pos ⟨rfl, Or.inl hc⟩]

/-! ## `NextGen` stores nothing into the receiver, on any grid -/

theorem genBody_life {σ σ' : GenState} {i j : Int} (h : genBody σ i j = some σ') :
    σ'.life = σ.life := by
  unfold genBody at h
  cases hv : σ.life.nextStatus i j with
  | none => simp [hv] at h
  | some v =>
    cases hc : writeCell σ.next.Cells (σ.life.index i j) v with
    | none => simp [hv, hc] at h
    | some cells =>
      simp only [hv, hc, Option.bind_eq_bind, Option.some_bind, Option.some.injEq] at h
      rw [← h]

theorem foldlM_life {α : Type} (f : GenState → α → Option GenState)
    (hf : ∀ σ a σ', f σ a = some σ' → σ'.life = σ.life) (l : List α) :
    ∀ σ σ' : GenState, l.foldlM f σ = some σ' → σ'.life = σ.life := by
  induction l with
  | nil =>
    intro σ σ' h
    simp only [List.foldlM_nil, Option.pure_def, Option.some.injEq] at h
    rw [h]
  | cons a rest ih =>
    intro σ σ' h
    rw [List.foldlM_cons] at h
    cases hfa : f σ a with
    | none => simp [hfa] at h
    | some τ =>
      simp only [hfa, Option.bind_eq_bind, Option.some_bind] at h
      rw [ih τ σ' h, hf σ a τ hfa]

theorem Life.NextGenRun_life {g : Life} {σ : GenState} (h : g.NextGenRun = some σ) :
    σ.life = g := by
  unfold Life.NextGenRun at h
  cases hnew : NewLife g.width g.height with
  | none => simp [hnew] at h
  | some next =>
    simp only [hnew, Option.bind_eq_bind, Option.some_bind, genOuter] at h
    have := foldlM_life (fun τ (i : Nat) => genInner τ i)
      (fun σ a σ' hs => by
        unfold genInner at hs
        exact foldlM_life (fun τ (j : Nat) => genBody τ a j)
          (fun _ _ _ hb => genBody_life hb) _ σ σ' hs) _ _ σ h
    exact this

/-! ## Rendering -/

theorem dumpInner_eq {g : Life} (hv : g.Valid) {i : Int} (hi0 : 0 ≤ i) (hiw : i < g.width)
    (out : Text) :
    dumpInner g i out =
      some (out ++ (List.range g.height.toNat).flatMap (fun (y : Nat) =>
        Status.String ((g.cell i y).getD Dead))) := by
  have key : ∀ n : Nat, n ≤ g.height.toNat →
      (List.range n).foldlM (fun acc (j : Nat) => do
          let s ← readCell g.Cells (g.index i j)
          some (acc ++ Status.String s)) out =
        some (out ++ (List.range n).flatMap (fun (y : Nat) =>
          Status.String ((g.cell i y).getD Dead))) := by
    intro n
    induction n with
    | zero => intro _; simp
    | succ n ih =>
      intro hn
      have hin : g.InGrid i n := ⟨hi0, hiw, Int.natCast_nonneg n, by omega⟩
      obtain ⟨s, hs, -⟩ := Life.cell_of_inGrid hv hin
      have hs' : readCell g.Cells (g.index i n) = some s := by
        rw [Life.index_of_inGrid hv hin]; exact hs
      rw [List.range_succ, List.foldlM_append, ih (by omega)]
      simp [hs', hs, List.flatMap_append]
  exact key _ (le_refl _)

theorem Life.Dump_eq {g : Life} (hv : g.Valid) (hw : 0 ≤ g.width) :
    g.Dump = some g.columnLayout := by
  have hsep : repeatDash g.width = some (List.replicate g.width.toNat '-') := by
    simp [repeatDash, hw]
  have key : ∀ n : Nat, n ≤ g.width.toNat → ∀ out : Text,
      (List.range n).foldlM (fun out (i : Nat) => do
        let line ← dumpInner g i out
        some (line ++ ['\n'])) out =
      some (out ++ (List.range n).flatMap (fun (x : Nat) =>
        (List.range g.height.toNat).flatMap (fun (y : Nat) =>
          Status.String ((g.cell x y).getD Dead)) ++ ['\n'])) := by
    intro n
    induction n with
    | zero => intro _ out; simp
    | succ n ih =>
      intro hn out
      rw [List.range_succ, List.foldlM_append, ih (by omega)]
      simp [dumpInner_eq hv (i := n) (Int.natCast_nonneg n) (by omega), List.flatMap_append]
  simp only [Life.Dump, hsep, Option.bind_eq_bind, Option.some_bind, Life.columnLayout]
  exact key _ (le_refl _) _

/-! ## Grids written as numbers -/

theorem bitGrid_valid {w h : Int} (hw : 0 ≤ w) (hh : 0 ≤ h) (hfit : w * h ≤ maxAlloc)
    (n : Nat) : (bitGrid w h n).Valid := by
  have hp : 0 ≤ w * h := Int.mul_nonneg hw hh
  simp only [Life.Valid, bitGrid, List.length_map, List.length_range]
  omega

theorem bitGrid_cell {w h : Int} (n : Nat) {x y : Int} (hx0 : 0 ≤ x) (hxw : x < w)
    (hy0 : 0 ≤ y) (hyh : y < h) :
    (bitGrid w h n).cell x y = some (bitStatus n (y * w + x)) := by
  have hb := index_bounds hx0 hxw hy0 hyh
  have hk : (y * w + x).toNat < (w * h).toNat := by omega
  simp [Life.cell, bitGrid, readCell, hb.1, bitStatus, hk]

theorem bitGrid_liveNeighbours {w h : Int} (n : Nat) (x y : Int) :
    (bitGrid w h n).liveNeighbours x y = bitCount w h n x y := by
  unfold Life.liveNeighbours bitCount
  congr 1
  apply List.filter_congr
  intro off _
  unfold Life.liveAt
  have hDL : ¬ (Dead = Live) := by decide
  by_cases hin : 0 ≤ x + off.1 ∧ x + off.1 < w ∧ 0 ≤ y + off.2 ∧ y + off.2 < h
  · have hin' : (bitGrid w h n).InGrid (x + off.1) (y + off.2) := hin
    rw [bitGrid_cell n hin.1 hin.2.1 hin.2.2.1 hin.2.2.2]
    by_cases hb : n.testBit ((y + off.2) * w + (x + off.1)).toNat
    · simp [hin, hin', bitStatus, hb]
    · simp [hin, hin', bitStatus, hb, hDL]
  · have hin' : ¬ (bitGrid w h n).InGrid (x + off.1) (y + off.2) := hin
    simp [hin, hin']

theorem bitStep {w h : Nat} (hfit : (w : Int) * (h : Int) ≤ maxAlloc) {n m : Nat}
    (hok : bitStepOk w h n m = true) :
    (bitGrid w h n).NextGen = some (bitGrid w h m) := by
  have hv := bitGrid_valid (Int.natCast_nonneg w) (Int.natCast_nonneg h) hfit n
  have hv' := bitGrid_valid (Int.natCast_nonneg w) (Int.natCast_nonneg h) hfit m
  obtain ⟨g', hn, hnw, hnh, -⟩ := Life.NextGen_spec hv
  rw [hn]
  refine congrArg some ?_
  apply Life.ext_cells (Life.NextGen_valid hv hn) hv' hnw hnh
    (by rw [hnw]; exact Int.natCast_nonneg w)
  intro x y hin
  have hing : (bitGrid w h n).InGrid x y := (Life.inGrid_congr hnw hnh).mp hin
  have hbnd : 0 ≤ x ∧ x < (w : Int) ∧ 0 ≤ y ∧ y < (h : Int) := hing
  obtain ⟨hx0, hxw, hy0, hyh⟩ := hbnd
  rw [Life.NextGen_cell hv hn hing]
  obtain ⟨s, hs, -, hns⟩ := Life.nextStatus_eq hv hing
  rw [bitGrid_cell n hx0 hxw hy0 hyh] at hs
  replace hs := Option.some.inj hs
  rw [hns, ← hs, bitGrid_liveNeighbours, bitGrid_cell m hx0 hxw hy0 hyh]
  unfold bitStepOk at hok
  rw [List.all_eq_true] at hok
  have h1 := hok x.toNat (List.mem_range.mpr (by omega))
  rw [List.all_eq_true] at h1
  have h2 := h1 y.toNat (List.mem_range.mpr (by omega))
  rw [decide_eq_true_eq] at h2
  have ex : ((x.toNat : Nat) : Int) = x := by omega
  have ey : ((y.toNat : Nat) : Int) = y := by omega
  rw [ex, ey] at h2
  rw [h2]

theorem maskOf_testBit (len : Nat) (p : Nat → Bool) (k : Nat) :
    (maskOf len p).testBit k = (decide (k < len) && p k) := by
  unfold maskOf
  induction len with
  | zero => simp
  | succ len ih =>
    rw [List.range_succ, List.foldl_append]
    simp only [List.foldl_cons, List.foldl_nil]
    by_cases hp : p len
    · rw [if_pos hp, Nat.testBit_or, ih, Nat.one_shiftLeft, Nat.testBit_two_pow]
      by_cases hk : k = len
      · subst hk; simp [hp]
      · have h1 : ¬ len = k := fun h => hk h.symm
        by_cases hlt : k < len
        · have : k < len + 1 := by omega
          simp [hlt, this, h1]
        · have : ¬ k < len + 1 := by omega
          simp [hlt, this, h1]
    · rw [if_neg hp, ih]
      by_cases hk : k = len
      · subst hk; simp [hp]
      · by_cases hlt : k < len
        · have : k < len + 1 := by omega
          simp [hlt, this]
        · have : ¬ k < len + 1 := by omega
          simp [hlt, this]

theorem shiftInt_testBit (n : Nat) (d : Int) (k : Nat) :
    (shiftInt n d).testBit k =
      (decide (0 ≤ (k : Int) + d) && n.testBit ((k : Int) + d).toNat) := by
  unfold shiftInt
  by_cases hd : 0 ≤ d
  · have h0 : 0 ≤ (k : Int) + d := by omega
    have he : ((k : Int) + d).toNat = d.toNat + k := by omega
    simp [hd, h0, he]
  · rw [if_neg hd, Nat.testBit_shiftLeft]
    by_cases h0 : 0 ≤ (k : Int) + d
    · have h1 : k ≥ (-d).toNat := by omega
      have he : ((k : Int) + d).toNat = k - (-d).toNat := by omega
      simp [h0, h1, he]
    · have h1 : ¬ k ≥ (-d).toNat := by omega
      simp [h0, h1]

theorem colMask_testBit {w h : Nat} {dx : Int} (hdx : dx = -1 ∨ dx = 0 ∨ dx = 1) {k : Nat}
    (hk : k < w * h) :
    (colMask w h dx).testBit k =
      decide (0 ≤ ((k % w : Nat) : Int) + dx ∧ ((k % w : Nat) : Int) + dx < (w : Int)) := by
  have hw : 0 < w := by
    rcases Nat.eq_zero_or_pos w with h0 | h0
    · rw [h0, Nat.zero_mul] at hk; omega
    · exact h0
  have hx : k % w < w := Nat.mod_lt k hw
  have hx0 : (0 : Int) ≤ ((k % w : Nat) : Int) := Int.natCast_nonneg _
  have hxw : ((k % w : Nat) : Int) < (w : Int) := Int.ofNat_lt.mpr hx
  have hkd : decide (k < w * h) = true := decide_eq_true hk
  rcases hdx with rfl | rfl | rfl
  · unfold colMask
    rw [if_pos (by decide), maskOf_testBit, hkd, Bool.true_and, decide_eq_decide]
    constructor
    · intro h1
      have : (1 : Int) ≤ ((k % w : Nat) : Int) := by exact_mod_cast h1
      omega
    · intro h1
      have : (1 : Int) ≤ ((k % w : Nat) : Int) := by omega
      exact_mod_cast this
  · unfold colMask
    rw [if_neg (by decide), if_neg (by decide), maskOf_testBit, hkd, Bool.true_and]
    symm
    rw [decide_eq_true_eq]
    omega
  · unfold colMask
    rw [if_neg (by decide), if_pos (by decide), maskOf_testBit, hkd, Bool.true_and,
      decide_eq_decide]
    constructor
    · intro h1
      have : ((k % w : Nat) : Int) + 1 < (w : Int) := by exact_mod_cast h1
      omega
    · intro h1
      have : ((k % w : Nat) : Int) + 1 < (w : Int) := by omega
      exact_mod_cast this

theorem rowMask_testBit {w h : Nat} {dy : Int} (hdy : dy = -1 ∨ dy = 0 ∨ dy = 1) {k : Nat}
    (hk : k < w * h) :
    (rowMask w h dy).testBit k =
      decide (0 ≤ ((k / w : Nat) : Int) + dy ∧ ((k / w : Nat) : Int) + dy < (h : Int)) := by
  have hw : 0 < w := by
    rcases Nat.eq_zero_or_pos w with h0 | h0
    · rw [h0, Nat.zero_mul] at hk; omega
    · exact h0
  have hy : k / w < h := (Nat.div_lt_iff_lt_mul hw).mpr (by rw [Nat.mul_comm]; exact hk)
  have hdm : w * (k / w) + k % w = k := Nat.div_add_mod k w
  have hx : k % w < w := Nat.mod_lt k hw
  have hy0 : (0 : Int) ≤ ((k / w : Nat) : Int) := Int.natCast_nonneg _
  have hyh : ((k / w : Nat) : Int) < (h : Int) := Int.ofNat_lt.mpr hy
  have hkd : decide (k < w * h) = true := decide_eq_true hk
  rcases hdy with rfl | rfl | rfl
  · have hge : 1 ≤ k / w ↔ w ≤ k := by rw [Nat.le_div_iff_mul_le hw, Nat.one_mul]
    unfold rowMask
    rw [if_pos (by decide), maskOf_testBit, hkd, Bool.true_and, decide_eq_decide, ← hge]
    constructor
    · intro h1
      have : (1 : Int) ≤ ((k / w : Nat) : Int) := by exact_mod_cast h1
      omega
    · intro h1
      have : (1 : Int) ≤ ((k / w : Nat) : Int) := by omega
      exact_mod_cast this
  · unfold rowMask
    rw [if_neg (by decide), if_neg (by decide), maskOf_testBit, hkd, Bool.true_and]
    symm
    rw [decide_eq_true_eq]
    omega
  · have hlt : k / w + 1 < h ↔ k + w < w * h := by
      generalize k / w = y at hdm hy
      generalize k % w = x at hdm hx
      constructor
      · intro h1
        have h2 : y + 2 ≤ h := by omega
        have h3 : w * (y + 2) ≤ w * h := Nat.mul_le_mul_left w h2
        have h4 : w * (y + 2) = w * y + w + w := by ring
        omega
      · intro h1
        by_contra hge
        have h6 : h ≤ y + 1 := by omega
        have h7 : w * h ≤ w * (y + 1) := Nat.mul_le_mul_left w h6
        have h8 : w * (y + 1) = w * y + w := by ring
        omega
    unfold rowMask
    rw [if_neg (by decide), if_pos (by decide), maskOf_testBit, hkd, Bool.true_and,
      decide_eq_decide, ← hlt]
    constructor
    · intro h1
      have : ((k / w : Nat) : Int) + 1 < (h : Int) := by exact_mod_cast h1
      omega
    · intro h1
      have : ((k / w : Nat) : Int) + 1 < (h : Int) := by omega
      exact_mod_cast this

theorem offsets_components {off : Int × Int} (hoff : off ∈ offsets) :
    (off.1 = -1 ∨ off.1 = 0 ∨ off.1 = 1) ∧ (off.2 = -1 ∨ off.2 = 0 ∨ off.2 = 1) := by
  simp only [offsets, List.mem_cons, List.mem_singleton, List.not_mem_nil, or_false] at hoff
  rcases hoff with rfl | rfl | rfl | rfl | rfl | rfl | rfl | rfl <;> simp

theorem nbWord_testBit {w h : Nat} (n : Nat) {off : Int × Int} (hoff : off ∈ offsets)
    {k : Nat} (hk : k < w * h) :
    (nbWord w h n off).testBit k =
      (decide (0 ≤ ((k % w : Nat) : Int) + off.1 ∧ ((k % w : Nat) : Int) + off.1 < (w : Int) ∧
          0 ≤ ((k / w : Nat) : Int) + off.2 ∧ ((k / w : Nat) : Int) + off.2 < (h : Int)) &&
        n.testBit ((((k / w : Nat) : Int) + off.2) * (w : Int) +
          (((k % w : Nat) : Int) + off.1)).toNat) := by
  obtain ⟨hdx, hdy⟩ := offsets_components hoff
  have hdm : w * (k / w) + k % w = k := Nat.div_add_mod k w
  have hkI : (k : Int) = ((k / w : Nat) : Int) * (w : Int) + ((k % w : Nat) : Int) := by
    have : ((w * (k / w) + k % w : Nat) : Int) = (k : Int) := by rw [hdm]
    rw [← this]; push_cast; ring
  have hidx : (k : Int) + (off.2 * (w : Int) + off.1) =
      (((k / w : Nat) : Int) + off.2) * (w : Int) + (((k % w : Nat) : Int) + off.1) := by
    rw [hkI]; ring
  have hmask : (decide (0 ≤ ((k % w : Nat) : Int) + off.1 ∧
        ((k % w : Nat) : Int) + off.1 < (w : Int)) &&
      decide (0 ≤ ((k / w : Nat) : Int) + off.2 ∧ ((k / w : Nat) : Int) + off.2 < (h : Int))) =
      decide (0 ≤ ((k % w : Nat) : Int) + off.1 ∧ ((k % w : Nat) : Int) + off.1 < (w : Int) ∧
        0 ≤ ((k / w : Nat) : Int) + off.2 ∧ ((k / w : Nat) : Int) + off.2 < (h : Int)) := by
    rw [← Bool.decide_and]
    exact decide_eq_decide.mpr and_assoc
  unfold nbWord
  rw [Nat.testBit_and, Nat.testBit_and, shiftInt_testBit, colMask_testBit hdx hk,
    rowMask_testBit hdy hk, hidx, hmask]
  by_cases hin : 0 ≤ ((k % w : Nat) : Int) + off.1 ∧ ((k % w : Nat) : Int) + off.1 < (w : Int) ∧
      0 ≤ ((k / w : Nat) : Int) + off.2 ∧ ((k / w : Nat) : Int) + off.2 < (h : Int)
  · have h0 := (index_bounds hin.1 hin.2.1 hin.2.2.1 hin.2.2.2).1
    rw [decide_eq_true hin, decide_eq_true h0, Bool.true_and, Bool.and_true]
  · rw [decide_eq_false hin, Bool.and_false, Bool.false_and]

theorem addWord_counterAt (s : Nat × Nat × Nat × Nat) (b k : Nat) :
    counterAt (addWord s b) k = (counterAt s k + (b.testBit k).toNat) % 16 := by
  simp only [counterAt, addWord, Nat.testBit_xor, Nat.testBit_and]
  cases s.1.testBit k <;> cases s.2.1.testBit k <;> cases s.2.2.1.testBit k <;>
    cases s.2.2.2.testBit k <;> cases b.testBit k <;> rfl

theorem foldl_addWord_counterAt (ws : List Nat) (k : Nat) :
    ∀ s : Nat × Nat × Nat × Nat,
      counterAt (ws.foldl addWord s) k =
        (counterAt s k + ws.countP (fun b => b.testBit k)) % 16 := by
  induction ws with
  | nil =>
    intro s
    have : counterAt s k < 16 := by
      unfold counterAt
      cases s.1.testBit k <;> cases s.2.1.testBit k <;> cases s.2.2.1.testBit k <;>
        cases s.2.2.2.testBit k <;> decide
    simp only [List.foldl_nil, List.countP_nil, Nat.add_zero]
    omega
  | cons b ws ih =>
    intro s
    rw [List.foldl_cons, ih, addWord_counterAt, List.countP_cons]
    cases b.testBit k
    · simp
    · simp only [Bool.toNat_true, if_true]
      omega

theorem rule_bool : ∀ a b c d e : Bool,
    (((a && b) || ((e && b) ^^ ((e && b) && a))) ^^
        (((a && b) || ((e && b) ^^ ((e && b) && a))) && (c || d))) =
      (decide (a.toNat + 2 * b.toNat + 4 * c.toNat + 8 * d.toNat = 3) ||
        (e && decide (a.toNat + 2 * b.toNat + 4 * c.toNat + 8 * d.toNat = 2))) := by
  decide

theorem ruleWord_testBit (n : Nat) (s : Nat × Nat × Nat × Nat) (k : Nat) :
    (ruleWord n s).testBit k =
      (decide (counterAt s k = 3) || (n.testBit k && decide (counterAt s k = 2))) := by
  simp only [counterAt, ruleWord, Nat.testBit_xor, Nat.testBit_and, Nat.testBit_or]
  exact rule_bool _ _ _ _ _

theorem nbWords_countP {w h : Nat} (n : Nat) {k : Nat} (hk : k < w * h) :
    (offsets.map (nbWord w h n)).countP (fun b => b.testBit k) =
      bitCount w h n ((k % w : Nat) : Int) ((k / w : Nat) : Int) := by
  rw [List.countP_map, bitCount, ← List.countP_eq_length_filter]
  apply List.countP_congr
  intro off hoff
  simp only [Function.comp, nbWord_testBit n hoff hk]

theorem bitNext_testBit {w h : Nat} (n : Nat) {k : Nat} (hk : k < w * h) :
    (bitNext w h n).testBit k =
      (decide (bitCount w h n ((k % w : Nat) : Int) ((k / w : Nat) : Int) = 3) ||
        (n.testBit k &&
          decide (bitCount w h n ((k % w : Nat) : Int) ((k / w : Nat) : Int) = 2))) := by
  have hle : (offsets.map (nbWord w h n)).countP (fun b => b.testBit k) ≤ 8 :=
    le_trans (List.countP_le_length _) (by simp [offsets])
  have hcount : counterAt ((offsets.map (nbWord w h n)).foldl addWord (0, 0, 0, 0)) k =
      bitCount w h n ((k % w : Nat) : Int) ((k / w : Nat) : Int) := by
    rw [foldl_addWord_counterAt, ← nbWords_countP n hk]
    have h0 : counterAt (0, 0, 0, 0) k = 0 := by simp [counterAt]
    rw [h0]
    omega
  unfold bitNext
  rw [ruleWord_testBit, hcount]

theorem switchStatus_bool (a : Bool) (c : Nat) :
    switchStatus (if a = true then Live else Dead) (c : Int) =
      if (decide (c = 3) || (a && decide (c = 2))) = true then Live else Dead := by
  have hDL : ¬ (Dead = Live) := by decide
  have hiff := switchStatus_eq_live_iff (if a = true then Live else Dead) c
  have hbin := switchStatus_binary (s := if a = true then Live else Dead)
    (by cases a <;> simp) (c : Int)
  by_cases hcond : (decide (c = 3) || (a && decide (c = 2))) = true
  · rw [if_pos hcond, hiff]
    cases a
    · right
      simp only [Bool.false_and, Bool.or_false, decide_eq_true_eq] at hcond
      exact ⟨by simp, hcond⟩
    · left
      simp only [Bool.true_and, Bool.or_eq_true, decide_eq_true_eq] at hcond
      exact ⟨by simp, by omega⟩
  · rw [if_neg hcond]
    rcases hbin with hd | hl
    · exact hd
    · exfalso
      apply hcond
      rcases hiff.mp hl with ⟨ha, hc⟩ | ⟨ha, hc⟩
      · cases a
        · simp at ha; exact absurd ha hDL
        · rcases hc with hc | hc <;> simp [hc]
      · simp [hc]

theorem bitNext_stepOk (w h n : Nat) : bitStepOk w h n (bitNext w h n) = true := by
  unfold bitStepOk
  rw [List.all_eq_true]
  intro i hi
  rw [List.all_eq_true]
  intro j hj
  rw [List.mem_range] at hi hj
  rw [decide_eq_true_eq]
  have hk : i + j * w < w * h := by
    have h1 : (j + 1) * w ≤ h * w := Nat.mul_le_mul_right w hj
    have h2 : (j + 1) * w = j * w + w := by ring
    have h3 : h * w = w * h := Nat.mul_comm h w
    omega
  have hmod : (i + j * w) % w = i := by
    rw [Nat.add_mul_mod_self_right, Nat.mod_eq_of_lt hi]
  have hdiv : (i + j * w) / w = j := by
    rw [Nat.add_mul_div_right _ _ (by omega : 0 < w), Nat.div_eq_of_lt hi, Nat.zero_add]
  have hz : ((j : Int) * (w : Int) + (i : Int)) = ((i + j * w : Nat) : Int) := by
    push_cast; ring
  have hnext := bitNext_testBit n hk
  rw [hmod, hdiv] at hnext
  unfold bitStatus
  rw [hz, Int.toNat_natCast, hnext]
  exact switchStatus_bool _ _

theorem bitGrid_over {w h : Nat} {n : Nat} (hlive : anyLive w h n = true) :
    (bitGrid w h n).Over = false := by
  unfold anyLive at hlive
  rw [List.any_eq_true] at hlive
  obtain ⟨k, hk, hbit⟩ := hlive
  rw [Life.Over, overLoop_false_iff]
  refine ⟨Live, ?_, rfl⟩
  simp only [bitGrid, List.mem_map]
  refine ⟨k, ?_, by simp [hbit]⟩
  rw [List.mem_range] at hk ⊢
  have : ((w : Int) * (h : Int)).toNat = w * h := by
    rw [← Int.natCast_mul]; exact Int.toNat_natCast _
  omega

theorem iterGen_add (a b : Nat) (g : Life) :
    iterGen (a + b) g = (iterGen a g).bind (iterGen b) := by
  induction a generalizing g with
  | zero => simp [iterGen]
  | succ a ih =>
    rw [Nat.succ_add]
    simp only [iterGen]
    cases hn : g.NextGen with
    | none => simp
    | some g' => simp [ih]

theorem chain_iter {w h : Nat} (hfit : (w : Int) * (h : Int) ≤ maxAlloc) (l : List Nat) :
    ∀ a : Nat, chainOk w h (a :: l) = true → ∀ k : Nat, k ≤ l.length →
      iterGen k (bitGrid w h a) = some (bitGrid w h ((a :: l).getD k 0)) := by
  induction l with
  | nil =>
    intro a _ k hk
    have : k = 0 := by simpa using hk
    subst this
    simp [iterGen]
  | cons b rest ih =>
    intro a hok k hk
    simp only [chainOk, Bool.and_eq_true, beq_iff_eq] at hok
    cases k with
    | zero => simp [iterGen]
    | succ k =>
      have hk' : k ≤ rest.length := by simpa using hk
      have hstep : (bitGrid w h a).NextGen = some (bitGrid w h b) := by
        rw [← hok.1]; exact bitStep hfit (bitNext_stepOk w h a)
      simp only [iterGen, hstep, Option.some_bind, ih b hok.2 k hk']
      simp

theorem still_step {w h : Nat} (hfit : (w : Int) * (h : Int) ≤ maxAlloc) {s : Nat}
    (hs : bitNext w h s = s) :
    (bitGrid w h s).NextGen = some (bitGrid w h s) := by
  have h := bitStep hfit (bitNext_stepOk w h s)
  rw [hs] at h
  exact h

theorem still_iter {w h : Nat} (hfit : (w : Int) * (h : Int) ≤ maxAlloc) {s : Nat}
    (hs : bitNext w h s = s) (m : Nat) :
    iterGen m (bitGrid w h s) = some (bitGrid w h s) := by
  induction m with
  | zero => simp [iterGen]
  | succ m ih => simp only [iterGen, still_step hfit hs, Option.some_bind, ih]

theorem run_of_chain {w h : Nat} (hfit : (w : Int) * (h : Int) ≤ maxAlloc)
    (l : List Nat) (s N : Nat) (g0 : Option Life)
    (hstart : g0 = some (bitGrid w h (l.getD 0 0))) (hchain : chainOk w h l = true)
    (hlast : l.getD N 0 = s) (hlen : l.length = N + 1)
    (hstill : bitNext w h s = s) (hall : l.all (anyLive w h) = true) (n : Nat) :
    ∃ g : Life, g0.bind (iterGen n) = some g ∧ g.Over = false ∧ g.Valid ∧
      0 ≤ g.width ∧ (N ≤ n → g = bitGrid w h s) := by
  have hvalid : ∀ b : Nat, (bitGrid w h b).Valid ∧ 0 ≤ (bitGrid w h b).width :=
    fun b => ⟨bitGrid_valid (Int.natCast_nonneg w) (Int.natCast_nonneg h) hfit b,
      Int.natCast_nonneg w⟩
  have hlive : ∀ k : Nat, k ≤ N → (bitGrid w h (l.getD k 0)).Over = false := by
    intro k hk
    apply bitGrid_over
    rw [List.all_eq_true] at hall
    apply hall
    rw [List.getD_eq_getElem _ _ (by omega)]
    exact List.getElem_mem _
  have hiter : ∀ k : Nat, k ≤ N →
      g0.bind (iterGen k) = some (bitGrid w h (l.getD k 0)) := by
    intro k hk
    cases l with
    | nil => simp at hlen
    | cons a rest =>
      have hrl : rest.length = N := by simpa using hlen
      have ha : (a :: rest).getD 0 0 = a := by simp
      rw [hstart, Option.some_bind, ha]
      exact chain_iter hfit rest a hchain k (by omega)
  by_cases hn : n ≤ N
  · refine ⟨_, hiter n hn, hlive n hn, (hvalid _).1, (hvalid _).2, ?_⟩
    intro hge
    have : n = N := by omega
    rw [this, hlast]
  · obtain ⟨m, rfl⟩ : ∃ m, n = N + m := ⟨n - N, by omega⟩
    have hs := hlive N (le_refl _)
    rw [hlast] at hs
    refine ⟨bitGrid w h s, ?_, hs, (hvalid _).1, (hvalid _).2, fun _ => rfl⟩
    have h1 := hiter N (le_refl _)
    rw [hlast] at h1
    cases hd : g0 with
    | none => rw [hd] at h1; simp at h1
    | some g =>
      rw [hd] at h1
      simp only [Option.some_bind] at h1 ⊢
      rw [iterGen_add, h1, Option.some_bind]
      exact still_iter hfit hstill m

theorem mainLoop_running {P : Life → Prop}
    (hP : ∀ g, P g → g.Over = false ∧ g.Valid ∧ 0 ≤ g.width ∧
      ∃ g', g.NextGen = some g' ∧ P g') (fuel : Nat) :
    ∀ (k : Nat) (g : Life), P g → mainLoop fuel k g = Outcome.running := by
  induction fuel with
  | zero => intro k g _; rfl
  | succ fuel ih =>
    intro k g hg
    obtain ⟨hover, hv, hw, g', hnext, hg'⟩ := hP g hg
    simp only [mainLoop, hover, Life.Dump_eq hv hw, hnext]
    exact ih (k + 1) g' hg'

/-! ## The demonstration run -/

set_option maxRecDepth 100000 in
theorem demo_start : demoGrid = some (bitGrid 20 20 (demoGens.getD 0 0)) := by
  decide!

set_option maxRecDepth 100000 in
theorem demo_chain : chainOk 20 20 demoGens = true := by
  decide!

set_option maxRecDepth 100000 in
theorem demo_still : demoGens.getD 34 0 = demoStill ∧ demoGens.length = 34 + 1 ∧
    bitNext 20 20 demoStill = demoStill ∧ demoGens.all (anyLive 20 20) = true := by
  decide!

set_option maxRecDepth 100000 in
theorem demo_still_pts : patternGrid 20 20 demoStillPts = some (bitGrid 20 20 demoStill) := by
  decide!

set_option maxRecDepth 100000 in
theorem demo_layouts_differ :
    some (bitGrid 20 20 (demoGens.getD 0 0)).columnLayout ≠
      some (bitGrid 20 20 (demoGens.getD 0 0)).rowLayout := by
  decide!

theorem demo_generation (n : Nat) :
    ∃ g : Life, demoGrid.bind (iterGen n) = some g ∧ g.Over = false ∧ g.Valid ∧
      0 ≤ g.width ∧ (34 ≤ n → g = bitGrid 20 20 demoStill) :=
  run_of_chain (by decide) demoGens demoStill 34 demoGrid demo_start demo_chain demo_still.1
    demo_still.2.1 demo_still.2.2.1 demo_still.2.2.2 n

/-! ## Transposition -/

theorem Life.transpose_valid {g : Life} (hv : g.Valid) : g.transpose.Valid := by
  have hv' : (g.Cells.length : Int) = g.width * g.height := hv.1
  simp only [Life.Valid, Life.transpose, List.length_map, List.length_range]
  exact ⟨by rw [hv', Int.mul_comm], hv.2⟩

theorem Life.transpose_cell {g : Life} (hv : g.Valid) {a b : Int} (hin : g.InGrid b a) :
    g.transpose.cell a b = g.cell b a := by
  obtain ⟨hb0, hbw, ha0, hah⟩ := hin
  have hv' : (g.Cells.length : Int) = g.width * g.height := hv.1
  have hbnd := index_bounds ha0 hah hb0 hbw
  have henc := index_encode b ha0 hah
  have hk : (b * g.height + a).toNat < g.Cells.length := by
    have : g.height * g.width = g.width * g.height := Int.mul_comm _ _
    omega
  have hcast : (((b * g.height + a).toNat : Nat) : Int) = b * g.height + a := by omega
  obtain ⟨s, hs, -⟩ := Life.cell_of_inGrid hv (x := b) (y := a) ⟨hb0, hbw, ha0, hah⟩
  have hT : g.transpose.cell a b = some ((g.cell b a).getD Dead) := by
    show readCell ((List.range g.Cells.length).map (fun (k : Nat) =>
      (g.cell ((k : Int) / g.height) ((k : Int) % g.height)).getD Dead))
        (b * g.height + a) = _
    rw [readCell, if_pos hbnd.1, List.get?_eq_getElem?, List.getElem?_map,
      List.getElem?_range hk, Option.map_some', hcast, henc.1, henc.2]
  rw [hT, hs, Option.getD_some]

theorem Life.transpose_liveAt {g : Life} (hv : g.Valid) (a b : Int) (off : Int × Int) :
    g.transpose.liveAt a b off = g.liveAt b a (off.2, off.1) := by
  unfold Life.liveAt
  by_cases hin : g.InGrid (b + off.2) (a + off.1)
  · have hinT : g.transpose.InGrid (a + off.1) (b + off.2) := by
      obtain ⟨h1, h2, h3, h4⟩ := hin
      exact ⟨h3, h4, h1, h2⟩
    rw [Life.transpose_cell hv hin]
    simp [hin, hinT]
  · have hinT : ¬ g.transpose.InGrid (a + off.1) (b + off.2) := by
      rintro ⟨h1, h2, h3, h4⟩
      exact hin ⟨h3, h4, h1, h2⟩
    simp [hin, hinT]

theorem offsets_swap_perm : (offsets.map (fun off => (off.2, off.1))).Perm offsets := by
  decide

theorem Life.transpose_liveNeighbours {g : Life} (hv : g.Valid) (a b : Int) :
    g.transpose.liveNeighbours a b = g.liveNeighbours b a := by
  unfold Life.liveNeighbours
  rw [← List.countP_eq_length_filter, ← List.countP_eq_length_filter,
    ← offsets_swap_perm.countP_eq, List.countP_map]
  apply List.countP_congr
  intro off _
  simp [Life.transpose_liveAt hv]

theorem Life.transpose_nextGen {g n : Life} (hv : g.Valid) (hh : 0 ≤ g.height)
    (hn : g.NextGen = some n) : g.transpose.NextGen = some n.transpose := by
  obtain ⟨n', hn', hnw, hnh, -⟩ := Life.NextGen_spec hv
  rw [hn] at hn'
  cases hn'
  have hvn : n.Valid := Life.NextGen_valid hv hn
  have hvT := Life.transpose_valid hv
  obtain ⟨m, hm, hmw, hmh, -⟩ := Life.NextGen_spec hvT
  rw [hm]
  congr 1
  have hTw : g.transpose.width = g.height := rfl
  have hTh : g.transpose.height = g.width := rfl
  have hnTw : n.transpose.width = n.height := rfl
  have hnTh : n.transpose.height = n.width := rfl
  apply Life.ext_cells (Life.NextGen_valid hvT hm) (Life.transpose_valid hvn)
    (by rw [hmw, hTw, hnTw, hnh]) (by rw [hmh, hTh, hnTh, hnw]) (by rw [hmw, hTw]; exact hh)
  intro a b hin
  have hinT : g.transpose.InGrid a b := (Life.inGrid_congr hmw hmh).mp hin
  have hing : g.InGrid b a := by
    obtain ⟨h1, h2, h3, h4⟩ := hinT
    exact ⟨h3, h4, h1, h2⟩
  have hinn : n.InGrid b a := (Life.inGrid_congr hnw hnh).mpr hing
  rw [Life.NextGen_cell hvT hm hinT, Life.transpose_cell hvn hinn,
    Life.NextGen_cell hv hn hing]
  obtain ⟨sT, hsT, -, hnsT⟩ := Life.nextStatus_eq hvT hinT
  obtain ⟨s, hs, -, hns⟩ := Life.nextStatus_eq hv hing
  rw [Life.transpose_cell hv hing, hs] at hsT
  injection hsT with hsT
  rw [hnsT, hns, Life.transpose_liveNeighbours hv, hsT]

theorem Life.nextGen_dead_of_width_nonpos {g n : Life} (hv : g.Valid) (hw : g.width ≤ 0)
    (hn : g.NextGen = some n) : n.Cells = List.replicate g.Cells.length Dead := by
  obtain ⟨n', hn', -, -, hlen, -⟩ := Life.NextGen_spec hv
  rw [hn] at hn'
  cases hn'
  rw [List.eq_replicate_iff]
  refine ⟨hlen, ?_⟩
  intro s hs
  rcases Life.nextGen_cells_mem hv hn hs with hd | ⟨x, y, hin, -⟩
  · exact hd
  · obtain ⟨h1, h2, -⟩ := hin
    omega

theorem Life.transpose_nextGen_all {g n : Life} (hv : g.Valid) (hn : g.NextGen = some n) :
    g.transpose.NextGen = some n.transpose := by
  by_cases hh : 0 ≤ g.height
  · exact Life.transpose_nextGen hv hh hn
  · have hv' : (g.Cells.length : Int) = g.width * g.height := hv.1
    have hw : g.width ≤ 0 := by
      by_contra hpos
      have : g.width * g.height < 0 := Int.mul_neg_of_pos_of_neg (by omega) (by omega)
      omega
    obtain ⟨n', hn', hnw, hnh, hnlen, -⟩ := Life.NextGen_spec hv
    rw [hn] at hn'
    cases hn'
    have hvT := Life.transpose_valid hv
    obtain ⟨m, hm, hmw, hmh, hmlen, -⟩ := Life.NextGen_spec hvT
    have hmc := Life.nextGen_dead_of_width_nonpos hvT (show g.transpose.width ≤ 0 by
      show g.height ≤ 0
      omega) hm
    have hnc := Life.nextGen_dead_of_width_nonpos hv hw hn
    have hTlen : g.transpose.Cells.length = g.Cells.length := by
      simp [Life.transpose]
    have hTn : n.transpose.Cells = List.replicate g.Cells.length Dead := by
      rw [List.eq_replicate_iff]
      refine ⟨by simp [Life.transpose, hnlen], ?_⟩
      intro s hs
      simp only [Life.transpose, List.mem_map] at hs
      obtain ⟨k, -, rfl⟩ := hs
      cases hc : n.cell ((k : Int) / n.height) ((k : Int) % n.height) with
      | none => rfl
      | some t =>
        have ht : t ∈ n.Cells := readCell_mem hc
        rw [hnc] at ht
        rw [Option.getD_some]
        exact List.eq_of_mem_replicate ht
    rw [hm]
    congr 1
    cases m
    simp only [Life.transpose] at hTn ⊢
    simp only at hmc hmw hmh
    simp only [Life.mk.injEq]
    refine ⟨?_, ?_, ?_⟩
    · rw [hmc, hTlen, hTn]
    · rw [hmw, hnh]; rfl
    · rw [hmh, hnw]; rfl

/-! ## The claims -/

/-- C1: for a grid whose cells are all `Dead` or `Live` and whose cell array has
length `width*height`, and an in-range `(x,y)`, `NextGen` returns a grid whose
cell at index `y*width+x` is `Live` if and only if either the cell `(x,y)` of
the receiver is `Live` and its live-neighbour count is 2 or 3, or it is `Dead`
and the count is exactly 3. -/
theorem C1_nextGen_life_rule (g : Life) (hlen : g.Valid) (hbin : g.Binary) (x y : Int)
    (hin : g.InGrid x y) :
    ∃ n : Life, g.NextGen = some n ∧
      (readCell n.Cells (y * g.width + x) = some Live ↔
        (g.cell x y = some Live ∧ (g.liveNeighbours x y = 2 ∨ g.liveNeighbours x y = 3)) ∨
          (g.cell x y = some Dead ∧ g.liveNeighbours x y = 3)) := by
  obtain ⟨n, hn, hw, -⟩ := Life.NextGen_spec hlen
  refine ⟨n, hn, ?_⟩
  have hcell := Life.NextGen_cell hlen hn hin
  obtain ⟨s, hs, hmem, hns⟩ := Life.nextStatus_eq hlen hin
  have hread : readCell n.Cells (y * g.width + x) = n.cell x y := by
    simp [Life.cell, hw]
  rw [hread, hcell, hns, hs]
  rcases hbin s hmem with rfl | rfl
  · simpa using switchStatus_eq_live_iff Dead (g.liveNeighbours x y)
  · simpa using switchStatus_eq_live_iff Live (g.liveNeighbours x y)

/-- C1, on the middle cell of the 3x3 grid whose middle column is `Live`. -/
theorem C1_nextGen_life_rule_witness :
    columnGrid3x3.Valid ∧ columnGrid3x3.Binary ∧ columnGrid3x3.InGrid 1 1 ∧
      ∃ n : Life, columnGrid3x3.NextGen = some n ∧
        (readCell n.Cells (1 * columnGrid3x3.width + 1) = some Live ↔
          (columnGrid3x3.cell 1 1 = some Live ∧
            (columnGrid3x3.liveNeighbours 1 1 = 2 ∨ columnGrid3x3.liveNeighbours 1 1 = 3)) ∨
          (columnGrid3x3.cell 1 1 = some Dead ∧ columnGrid3x3.liveNeighbours 1 1 = 3)) :=
  ⟨by decide, by simp [Life.Binary, columnGrid3x3], by decide,
    C1_nextGen_life_rule columnGrid3x3 (by decide) (by simp [Life.Binary, columnGrid3x3]) 1 1
      (by decide)⟩

/-- C2, as stated, fails: on the 2x2 grid of `Dead` cells the coordinate `(2,0)`
violates `x < width`, yet `Seed(2,0)` returns without an error and sets the
cell at flat index 2, which is the cell `(0,1)`. -/
theorem C2_seed_wraps_counterexample :
    ¬ deadGrid2x2.InGrid 2 0 ∧
      deadGrid2x2.Seed 2 0 =
        (some (), { Cells := [Dead, Dead, Live, Dead], width := 2, height := 2 }) ∧
      (deadGrid2x2.Seed 2 0).2.cell 0 1 = some Live := by
  decide

/-- C2, amended: on a grid whose cell array has length `width*height`,
`Seed(x,y)` signals an index fault exactly when the flat index the program
computes, which is `y*width+x` reduced to the signed 64-bit range, lies outside
`[0, width*height)`; for `y*width+x` within the signed 64-bit range that is:
exactly when `y*width+x` lies outside `[0, width*height)`.  A call that faults
writes no cell: the grid after it is the grid before it. -/
theorem C2_seed_fault_iff_flat_index_outside (g : Life) (hlen : g.Valid) (x y : Int) :
    ((g.Seed x y).1 = none ↔
        ¬ (0 ≤ g.index x y ∧ g.index x y < g.width * g.height)) ∧
      g.index x y = wrap64 (y * g.width + x) ∧
      (-9223372036854775808 ≤ y * g.width + x → y * g.width + x < 9223372036854775808 →
        ((g.Seed x y).1 = none ↔
          ¬ (0 ≤ y * g.width + x ∧ y * g.width + x < g.width * g.height))) ∧
      ((g.Seed x y).1 = none → (g.Seed x y).2 = g) := by
  have hv : (g.Cells.length : Int) = g.width * g.height := hlen.1
  have hfault : ((g.Seed x y).1 = none ↔
      ¬ (0 ≤ g.index x y ∧ g.index x y < g.width * g.height)) ∧
      ((g.Seed x y).1 = none → (g.Seed x y).2 = g) := by
    by_cases hk : 0 ≤ g.index x y ∧ (g.index x y).toNat < g.Cells.length
    · have hr : 0 ≤ g.index x y ∧ g.index x y < g.width * g.height := by omega
      simp [Life.Seed, writeCell, hk, hr]
    · have hr : ¬ (0 ≤ g.index x y ∧ g.index x y < g.width * g.height) := by omega
      simp only [Life.Seed, writeCell, if_neg hk, hr, not_false_eq_true, true_and,
        implies_true, and_self]
  refine ⟨hfault.1, Life.index_eq_wrap g x y, ?_, hfault.2⟩
  intro h0 h1
  have hix : g.index x y = y * g.width + x := by
    rw [Life.index_eq_wrap]; exact wrap64_of_range h0 h1
  rw [← hix]
  exact hfault.1

/-- C2 amended, on the 2x2 grid of `Dead` cells at `(0,2)` (flat index 4). -/
theorem C2_seed_fault_iff_flat_index_outside_witness :
    deadGrid2x2.Valid ∧
      (((deadGrid2x2.Seed 0 2).1 = none ↔
          ¬ (0 ≤ deadGrid2x2.index 0 2 ∧
            deadGrid2x2.index 0 2 < deadGrid2x2.width * deadGrid2x2.height)) ∧
        deadGrid2x2.index 0 2 = wrap64 (2 * deadGrid2x2.width + 0) ∧
        (-9223372036854775808 ≤ 2 * deadGrid2x2.width + 0 →
          2 * deadGrid2x2.width + 0 < 9223372036854775808 →
          ((deadGrid2x2.Seed 0 2).1 = none ↔
            ¬ (0 ≤ 2 * deadGrid2x2.width + 0 ∧
              2 * deadGrid2x2.width + 0 < deadGrid2x2.width * deadGrid2x2.height))) ∧
        ((deadGrid2x2.Seed 0 2).1 = none → (deadGrid2x2.Seed 0 2).2 = deadGrid2x2)) :=
  ⟨by decide, C2_seed_fault_iff_flat_index_outside deadGrid2x2 (by decide) 0 2⟩

/-- C3: on a grid whose cell array has length `width*height`, `NextGen` returns
and leaves the receiver as it was: its width, its height and its cell array are
those before the call, and the grid returned is the other, new object. -/
theorem C3_nextGen_leaves_receiver (g : Life) (hlen : g.Valid) :
    ∃ σ : GenState, g.NextGenRun = some σ ∧ g.NextGen = some σ.next ∧
      σ.life.width = g.width ∧ σ.life.height = g.height ∧ σ.life.Cells = g.Cells := by
  obtain ⟨n, hrun, -⟩ := Life.NextGenRun_spec hlen
  exact ⟨{ life := g, next := n }, hrun, by simp [Life.NextGen, hrun], rfl, rfl, rfl⟩

/-- C3, on the 3x3 grid whose middle column is `Live`. -/
theorem C3_nextGen_leaves_receiver_witness :
    columnGrid3x3.Valid ∧
      ∃ σ : GenState, columnGrid3x3.NextGenRun = some σ ∧
        columnGrid3x3.NextGen = some σ.next ∧ σ.life.width = columnGrid3x3.width ∧
        σ.life.height = columnGrid3x3.height ∧ σ.life.Cells = columnGrid3x3.Cells :=
  ⟨by decide, C3_nextGen_leaves_receiver columnGrid3x3 (by decide)⟩

/-- C4: `Over()` returns true if and only if every element of the cell array is
`Dead`, and false if and only if at least one cell is `Live`; the call stores
nothing, so the grid after it is the grid before it.  The cells of a grid are
`Dead` or `Live`, the two states of the data model: `NewLife` yields such a
grid, and `Seed` and `NextGen` keep it so (`NewLife_length`,
`Life.seed_binary`, `Life.nextGen_binary`). -/
theorem C4_over_iff_all_dead (g : Life) (hbin : g.Binary) :
    (g.Over = true ↔ ∀ s ∈ g.Cells, s = Dead) ∧
      (g.Over = false ↔ ∃ s ∈ g.Cells, s = Live) ∧ (g.OverRun).1 = g.Over ∧
      (g.OverRun).2 = g := by
  refine ⟨?_, overLoop_false_iff g.Cells, rfl, rfl⟩
  have hDL : Dead ≠ Live := by decide
  rw [Life.Over, overLoop_true_iff]
  constructor
  · intro h s hs
    rcases hbin s hs with hd | hl
    · exact hd
    · exact absurd hl (h s hs)
  · intro h s hs hl
    exact hDL ((h s hs).symm.trans hl)

/-- C4, on the 2x2 grid of `Dead` cells. -/
theorem C4_over_iff_all_dead_witness :
    deadGrid2x2.Binary ∧
      ((deadGrid2x2.Over = true ↔ ∀ s ∈ deadGrid2x2.Cells, s = Dead) ∧
        (deadGrid2x2.Over = false ↔ ∃ s ∈ deadGrid2x2.Cells, s = Live) ∧
        (deadGrid2x2.OverRun).1 = deadGrid2x2.Over ∧ (deadGrid2x2.OverRun).2 = deadGrid2x2) :=
  ⟨by simp [Life.Binary, deadGrid2x2],
    C4_over_iff_all_dead deadGrid2x2 (by simp [Life.Binary, deadGrid2x2])⟩

/-- C5: on a grid whose cell array has length `width*height` and for an in-range
`(x,y)`, `Seed(x,y)` returns, the cell `(x,y)` is `Live` afterwards, every other
cell inside the grid has the state it had, and width and height are the same. -/
theorem C5_seed_sets_one_cell (g : Life) (hlen : g.Valid) (x y : Int) (hin : g.InGrid x y) :
    (g.Seed x y).1 = some () ∧ (g.Seed x y).2.cell x y = some Live ∧
      (∀ x' y' : Int, g.InGrid x' y' → (x', y') ≠ (x, y) →
        (g.Seed x y).2.cell x' y' = g.cell x' y') ∧
      (g.Seed x y).2.width = g.width ∧ (g.Seed x y).2.height = g.height := by
  rw [Life.Seed_eq hlen hin]
  refine ⟨rfl, ?_, ?_, rfl, rfl⟩
  · have := Life.cell_set hlen hin Live hin
    simpa [Life.cell] using this
  · intro x' y' hin' hne
    have := Life.cell_set hlen hin Live hin'
    have hne' : ¬ (x' = x ∧ y' = y) := fun h => hne (by rw [h.1, h.2])
    rw [if_neg hne'] at this
    simpa [Life.cell] using this

/-- C5, seeding `(1,0)` on the 2x2 grid of `Dead` cells. -/
theorem C5_seed_sets_one_cell_witness :
    deadGrid2x2.Valid ∧ deadGrid2x2.InGrid 1 0 ∧
      ((deadGrid2x2.Seed 1 0).1 = some () ∧ (deadGrid2x2.Seed 1 0).2.cell 1 0 = some Live ∧
        (∀ x' y' : Int, deadGrid2x2.InGrid x' y' → (x', y') ≠ (1, 0) →
          (deadGrid2x2.Seed 1 0).2.cell x' y' = deadGrid2x2.cell x' y') ∧
        (deadGrid2x2.Seed 1 0).2.width = deadGrid2x2.width ∧
        (deadGrid2x2.Seed 1 0).2.height = deadGrid2x2.height) :=
  ⟨by decide, by decide, C5_seed_sets_one_cell deadGrid2x2 (by decide) 1 0 (by decide)⟩

/-- C6: on a grid with `width >= 0` and `height >= 0`, its cell array of length
`width*height` as in the data model, `NextGen` returns a grid of the same width
and height whose cell array has length `width*height`, so that `Cap()` is the
same, and every index `k` below `width*height` is the index of an in-range
`(x,y)` whose cell holds the value `nextStatus(x,y)` computed on the receiver. -/
theorem C6_nextGen_same_dimensions_fully_populated (g : Life) (hlen : g.Valid)
    (hw : 0 ≤ g.width) (hh : 0 ≤ g.height) :
    ∃ n : Life, g.NextGen = some n ∧ n.width = g.width ∧ n.height = g.height ∧
      (n.Cells.length : Int) = g.width * g.height ∧ n.Cap = g.Cap ∧
      ∀ k : Nat, (k : Int) < g.width * g.height →
        ∃ x y : Int, g.InGrid x y ∧ (k : Int) = y * g.width + x ∧
          ∃ v : Status, g.nextStatus x y = some v ∧ n.Cells.get? k = some v := by
  obtain ⟨n, hn, hnw, hnh, hnlen, hcells⟩ := Life.NextGen_spec hlen
  have hv : (g.Cells.length : Int) = g.width * g.height := hlen.1
  refine ⟨n, hn, hnw, hnh, by rw [hnlen]; exact hv, by simp [Life.Cap, hnw, hnh], ?_⟩
  intro k hk
  have hw0 : 0 < g.width := by
    by_contra hneg
    have hle : g.width * g.height ≤ 0 :=
      Int.mul_nonpos_of_nonpos_of_nonneg (by omega) hh
    have hk0 : (0 : Int) ≤ k := Int.natCast_nonneg k
    omega
  obtain ⟨h1, h2, h3, h4, h5⟩ := index_decode hw0 (Int.natCast_nonneg k) hk
  obtain ⟨s0, -, -, hns⟩ := Life.nextStatus_eq hlen
    (x := (k : Int) % g.width) (y := (k : Int) / g.width) ⟨h1, h2, h3, h4⟩
  refine ⟨(k : Int) % g.width, (k : Int) / g.width, ⟨h1, h2, h3, h4⟩, h5.symm, _, hns, ?_⟩
  rw [hcells k (by omega)]
  simp [Life.nextCell, hw0, hns]

/-- C6, on the 3x3 grid whose middle column is `Live`. -/
theorem C6_nextGen_same_dimensions_fully_populated_witness :
    columnGrid3x3.Valid ∧ 0 ≤ columnGrid3x3.width ∧ 0 ≤ columnGrid3x3.height ∧
      ∃ n : Life, columnGrid3x3.NextGen = some n ∧ n.width = columnGrid3x3.width ∧
        n.height = columnGrid3x3.height ∧
        (n.Cells.length : Int) = columnGrid3x3.width * columnGrid3x3.height ∧
        n.Cap = columnGrid3x3.Cap ∧
        ∀ k : Nat, (k : Int) < columnGrid3x3.width * columnGrid3x3.height →
          ∃ x y : Int, columnGrid3x3.InGrid x y ∧ (k : Int) = y * columnGrid3x3.width + x ∧
            ∃ v : Status, columnGrid3x3.nextStatus x y = some v ∧ n.Cells.get? k = some v :=
  ⟨by decide, by decide, by decide,
    C6_nextGen_same_dimensions_fully_populated columnGrid3x3 (by decide) (by decide)
      (by decide)⟩

/-- C7, as stated, fails: the product `3037000500 * 3037000500` leaves the
64-bit range, the length handed to `make` is negative and
`NewLife(3037000500, 3037000500)` panics; `NewLife(4294967296, 4294967296)`
returns, but its cell array has no element and `Cap()` is 0, not
`width*height`. -/
theorem C7_newLife_overflow_counterexample :
    (0 : Int) ≤ 3037000500 ∧ NewLife 3037000500 3037000500 = none ∧
      (0 : Int) ≤ 4294967296 ∧
      NewLife 4294967296 4294967296 =
        some { Cells := [], width := 4294967296, height := 4294967296 } ∧
      Life.Cap { Cells := [], width := 4294967296, height := 4294967296 } = 0 := by
  decide

/-- C7, amended: for `width >= 0` and `height >= 0` whose product `width*height`
does not exceed the allocation limit `maxAlloc` of `make`,
`NewLife(width, height)` returns a grid of that width and height whose cell
array has length `width*height`, the value of `Cap()`, and in which every cell
is `Dead`, so that `Over()` is true. -/
theorem C7_newLife_all_dead_within_limit (width height : Int) (hw : 0 ≤ width)
    (hh : 0 ≤ height) (hfit : width * height ≤ maxAlloc) :
    ∃ g : Life, NewLife width height = some g ∧ g.width = width ∧ g.height = height ∧
      (g.Cells.length : Int) = width * height ∧ (g.Cells.length : Int) = g.Cap ∧
      (∀ s ∈ g.Cells, s = Dead) ∧ g.Over = true := by
  have hp : 0 ≤ width * height := Int.mul_nonneg hw hh
  have hwr : wrap64 (width * height) = width * height :=
    wrap64_of_range (by omega) (by have := maxAlloc_lt; omega)
  have hall : ∀ s ∈ List.replicate (width * height).toNat Dead, s = Dead :=
    fun s hs => List.eq_of_mem_replicate hs
  refine ⟨{ Cells := List.replicate (width * height).toNat Dead, width := width,
            height := height }, NewLife_of_fit hp hfit, rfl, rfl, ?_, ?_, hall, ?_⟩
  · simp only [List.length_replicate]; omega
  · simp only [List.length_replicate, Life.Cap, hwr]; omega
  · rw [Life.Over, overLoop_true_iff]
    intro s hs
    rw [hall s hs]
    decide

/-- C7 amended, for a 3x2 grid. -/
theorem C7_newLife_all_dead_within_limit_witness :
    (0 : Int) ≤ 3 ∧ (0 : Int) ≤ 2 ∧ (3 : Int) * 2 ≤ maxAlloc ∧
      ∃ g : Life, NewLife 3 2 = some g ∧ g.width = 3 ∧ g.height = 2 ∧
        (g.Cells.length : Int) = 3 * 2 ∧ (g.Cells.length : Int) = g.Cap ∧
        (∀ s ∈ g.Cells, s = Dead) ∧ g.Over = true :=
  ⟨by decide, by decide, by decide,
    C7_newLife_all_dead_within_limit 3 2 (by decide) (by decide) (by decide)⟩

/-- C8: extinction is stable: on a grid whose cell array has length
`width*height`, if `Over()` is true then `NextGen` returns a grid on which
`Over()` is true as well. -/
theorem C8_extinction_stable (g : Life) (hlen : g.Valid) (hover : g.Over = true) :
    ∃ n : Life, g.NextGen = some n ∧ n.Over = true := by
  obtain ⟨n, hn, -⟩ := Life.NextGen_spec hlen
  refine ⟨n, hn, ?_⟩
  have hno : ∀ s ∈ g.Cells, s ≠ Live := (overLoop_true_iff g.Cells).mp hover
  rw [Life.Over, overLoop_true_iff]
  intro s hs hlive
  rcases Life.nextGen_cells_mem hlen hn hs with hd | ⟨x, y, hin, hns⟩
  · rw [hd] at hlive
    exact absurd hlive (by decide)
  · obtain ⟨s0, -, hmem, hns'⟩ := Life.nextStatus_eq hlen hin
    rw [hns', Life.liveNeighbours_eq_zero hno] at hns
    injection hns with hns
    rw [hlive] at hns
    rcases (switchStatus_eq_live_iff s0 0).mp hns with ⟨h, -⟩ | ⟨-, h⟩
    · exact hno s0 hmem h
    · exact absurd h (by decide)

/-- C8, on the 2x2 grid of `Dead` cells. -/
theorem C8_extinction_stable_witness :
    deadGrid2x2.Valid ∧ deadGrid2x2.Over = true ∧
      ∃ n : Life, deadGrid2x2.NextGen = some n ∧ n.Over = true :=
  ⟨by decide, by decide, C8_extinction_stable deadGrid2x2 (by decide) (by decide)⟩

/-- C9: edges are hard boundaries.  For two grids of the same width and height,
each with a cell array of length `width*height`, `NextGen` returns on both, and
at every in-range `(x,y)` on whose cell and in-range Moore neighbours the two
grids agree the two results agree.  In particular, when `width >= 3` and the
grids agree off column `width-1`, the results agree on column 0; when
`height >= 3` and the grids agree off row `height-1`, they agree on row 0. -/
theorem C9_hard_boundaries (g1 g2 : Life) (hlen1 : g1.Valid) (hlen2 : g2.Valid)
    (hw : g1.width = g2.width) (hh : g1.height = g2.height) :
    ∃ n1 n2 : Life, g1.NextGen = some n1 ∧ g2.NextGen = some n2 ∧
      (∀ x y : Int, g1.InGrid x y → g1.AgreeAround g2 x y → n1.cell x y = n2.cell x y) ∧
      (3 ≤ g1.width →
        (∀ x y : Int, g1.InGrid x y → x ≠ g1.width - 1 → g1.cell x y = g2.cell x y) →
        ∀ y : Int, g1.InGrid 0 y → n1.cell 0 y = n2.cell 0 y) ∧
      (3 ≤ g1.height →
        (∀ x y : Int, g1.InGrid x y → y ≠ g1.height - 1 → g1.cell x y = g2.cell x y) →
        ∀ x : Int, g1.InGrid x 0 → n1.cell x 0 = n2.cell x 0) := by
  obtain ⟨n1, hn1, -⟩ := Life.NextGen_spec hlen1
  obtain ⟨n2, hn2, -⟩ := Life.NextGen_spec hlen2
  have key : ∀ x y : Int, g1.InGrid x y → g1.AgreeAround g2 x y →
      n1.cell x y = n2.cell x y := by
    intro x y hin hagree
    have hin2 : g2.InGrid x y := by
      unfold Life.InGrid at hin ⊢; rw [← hw, ← hh]; exact hin
    rw [Life.NextGen_cell hlen1 hn1 hin, Life.NextGen_cell hlen2 hn2 hin2]
    exact Life.nextStatus_congr hlen1 hlen2 hw hh hin hagree
  refine ⟨n1, n2, hn1, hn2, key, ?_, ?_⟩
  · intro hw3 hoff y hin
    apply key 0 y hin
    intro dx hdx dy _ hnb
    apply hoff _ _ hnb
    simp only [List.mem_cons, List.mem_singleton, List.not_mem_nil, or_false] at hdx
    omega
  · intro hh3 hoff x hin
    apply key x 0 hin
    intro dx _ dy hdy hnb
    apply hoff _ _ hnb
    simp only [List.mem_cons, List.mem_singleton, List.not_mem_nil, or_false] at hdy
    omega

/-- C9, on the 3x3 grid whose middle column is `Live` and the grid that differs
from it in the cell `(2,0)` of the last column. -/
theorem C9_hard_boundaries_witness :
    columnGrid3x3.Valid ∧ cornerGrid3x3.Valid ∧ columnGrid3x3.width = cornerGrid3x3.width ∧
      columnGrid3x3.height = cornerGrid3x3.height ∧
      ∃ n1 n2 : Life, columnGrid3x3.NextGen = some n1 ∧ cornerGrid3x3.NextGen = some n2 ∧
        (∀ x y : Int, columnGrid3x3.InGrid x y → columnGrid3x3.AgreeAround cornerGrid3x3 x y →
          n1.cell x y = n2.cell x y) ∧
        (3 ≤ columnGrid3x3.width →
          (∀ x y : Int, columnGrid3x3.InGrid x y → x ≠ columnGrid3x3.width - 1 →
            columnGrid3x3.cell x y = cornerGrid3x3.cell x y) →
          ∀ y : Int, columnGrid3x3.InGrid 0 y → n1.cell 0 y = n2.cell 0 y) ∧
        (3 ≤ columnGrid3x3.height →
          (∀ x y : Int, columnGrid3x3.InGrid x y → y ≠ columnGrid3x3.height - 1 →
            columnGrid3x3.cell x y = cornerGrid3x3.cell x y) →
          ∀ x : Int, columnGrid3x3.InGrid x 0 → n1.cell x 0 = n2.cell x 0) :=
  ⟨by decide, by decide, by decide, by decide,
    C9_hard_boundaries columnGrid3x3 cornerGrid3x3 (by decide) (by decide) (by decide)
      (by decide)⟩

/-- C10: blinker oscillation.  For `width >= 5` and `height >= 5` with
`width*height` within the allocation limit `maxAlloc` of `make` (so that
`NewLife(width, height)` returns), the grid whose only `Live` cells are
`(1,2),(2,2),(3,2)` has as its `NextGen` the grid whose only `Live` cells are
`(2,1),(2,2),(2,3)`, and `NextGen` of that one is the first grid again. -/
theorem C10_blinker_oscillates (width height : Int) (hw : 5 ≤ width) (hh : 5 ≤ height)
    (hfit : width * height ≤ maxAlloc) :
    ∃ row col : Life,
      patternGrid width height blinkerRow = some row ∧
      patternGrid width height blinkerCol = some col ∧
      row.width = width ∧ row.height = height ∧ col.width = width ∧ col.height = height ∧
      (∀ x y : Int, row.InGrid x y →
        row.cell x y = some (if (x, y) ∈ blinkerRow then Live else Dead)) ∧
      (∀ x y : Int, col.InGrid x y →
        col.cell x y = some (if (x, y) ∈ blinkerCol then Live else Dead)) ∧
      row.NextGen = some col ∧ col.NextGen = some row ∧
      row.NextGen.bind Life.NextGen = some row := by
  have hrowpts : ∀ p ∈ blinkerRow, 0 ≤ p.1 ∧ p.1 < width ∧ 0 ≤ p.2 ∧ p.2 < height := by
    intro p hp
    simp only [blinkerRow, List.mem_cons, List.mem_singleton, List.not_mem_nil, or_false] at hp
    rcases hp with rfl | rfl | rfl <;> simp only <;> omega
  have hcolpts : ∀ p ∈ blinkerCol, 0 ≤ p.1 ∧ p.1 < width ∧ 0 ≤ p.2 ∧ p.2 < height := by
    intro p hp
    simp only [blinkerCol, List.mem_cons, List.mem_singleton, List.not_mem_nil, or_false] at hp
    rcases hp with rfl | rfl | rfl <;> simp only <;> omega
  obtain ⟨row, hrow, hrv, hrw, hrh, hrcell⟩ :=
    patternGrid_spec (by omega) (by omega) hfit hrowpts
  obtain ⟨col, hcol, hcv, hcw, hch, hccell⟩ :=
    patternGrid_spec (by omega) (by omega) hfit hcolpts
  have hrin : ∀ p ∈ blinkerRow, row.InGrid p.1 p.2 := by
    intro p hp
    unfold Life.InGrid; rw [hrw, hrh]; exact hrowpts p hp
  have hcin : ∀ p ∈ blinkerCol, col.InGrid p.1 p.2 := by
    intro p hp
    unfold Life.InGrid; rw [hcw, hch]; exact hcolpts p hp
  have h1 : row.NextGen = some col :=
    Life.nextGen_pattern hrv hcv (hcw.trans hrw.symm) (hch.trans hrh.symm) (by omega) hrin
      hrcell hccell blinker_row_step
  have h2 : col.NextGen = some row :=
    Life.nextGen_pattern hcv hrv (hrw.trans hcw.symm) (hrh.trans hch.symm) (by omega) hcin
      hccell hrcell blinker_col_step
  exact ⟨row, col, hrow, hcol, hrw, hrh, hcw, hch, hrcell, hccell, h1, h2, by simp [h1, h2]⟩

/-- C10, on the 5x5 grid. -/
theorem C10_blinker_oscillates_witness :
    (5 : Int) ≤ 5 ∧ (5 : Int) * 5 ≤ maxAlloc ∧
      ∃ row col : Life,
        patternGrid 5 5 blinkerRow = some row ∧ patternGrid 5 5 blinkerCol = some col ∧
        row.width = 5 ∧ row.height = 5 ∧ col.width = 5 ∧ col.height = 5 ∧
        (∀ x y : Int, row.InGrid x y →
          row.cell x y = some (if (x, y) ∈ blinkerRow then Live else Dead)) ∧
        (∀ x y : Int, col.InGrid x y →
          col.cell x y = some (if (x, y) ∈ blinkerCol then Live else Dead)) ∧
        row.NextGen = some col ∧ col.NextGen = some row ∧
        row.NextGen.bind Life.NextGen = some row :=
  ⟨by decide, by decide, C10_blinker_oscillates 5 5 (by decide) (by decide) (by decide)⟩

/-- C11: block still life.  For every width, height and `(x,y)` with `0 <= x`,
`x+1 < width`, `0 <= y`, `y+1 < height`, and `width*height` within the
allocation limit `maxAlloc` of `make` (so that `NewLife(width, height)`
returns), the grid whose only `Live` cells are `(x,y),(x+1,y),(x,y+1),(x+1,y+1)`
is a fixed point: `NextGen` returns a grid equal to it. -/
theorem C11_block_still_life (width height x y : Int) (hx0 : 0 ≤ x) (hx1 : x + 1 < width)
    (hy0 : 0 ≤ y) (hy1 : y + 1 < height) (hfit : width * height ≤ maxAlloc) :
    ∃ g : Life, patternGrid width height (blockPts x y) = some g ∧
      g.width = width ∧ g.height = height ∧
      (∀ a b : Int, g.InGrid a b →
        g.cell a b = some (if (a, b) ∈ blockPts x y then Live else Dead)) ∧
      g.NextGen = some g := by
  have hpts : ∀ p ∈ blockPts x y, 0 ≤ p.1 ∧ p.1 < width ∧ 0 ≤ p.2 ∧ p.2 < height := by
    intro p hp
    simp only [blockPts, List.mem_cons, List.mem_singleton, List.not_mem_nil, or_false] at hp
    rcases hp with rfl | rfl | rfl | rfl <;> simp only <;> omega
  obtain ⟨g, hg, hv, hw, hh, hcell⟩ := patternGrid_spec (by omega) (by omega) hfit hpts
  have hin : ∀ p ∈ blockPts x y, g.InGrid p.1 p.2 := by
    intro p hp
    unfold Life.InGrid; rw [hw, hh]; exact hpts p hp
  exact ⟨g, hg, hw, hh, hcell,
    Life.nextGen_pattern hv hv rfl rfl (by omega) hin hcell hcell (block_step x y)⟩

/-- C11, for the block at `(1,1)` of a 4x4 grid. -/
theorem C11_block_still_life_witness :
    (0 : Int) ≤ 1 ∧ (1 : Int) + 1 < 4 ∧ (4 : Int) * 4 ≤ maxAlloc ∧
      ∃ g : Life, patternGrid 4 4 (blockPts 1 1) = some g ∧ g.width = 4 ∧ g.height = 4 ∧
        (∀ a b : Int, g.InGrid a b →
          g.cell a b = some (if (a, b) ∈ blockPts 1 1 then Live else Dead)) ∧
        g.NextGen = some g :=
  ⟨by decide, by decide, by decide,
    C11_block_still_life 4 4 1 1 (by decide) (by decide) (by decide) (by decide)
      (by decide)⟩

/-- C12: the corner cell.  For `width >= 1` and `height >= 1`, the cell `(0,0)`
has at most 3 Moore neighbours inside the grid; in a grid where `(0,0)` is
`Live` and fewer than 2 of its neighbours are `Live`, the cell `(0,0)` of
`NextGen` is `Dead`; and, `width*height` being within the allocation limit
`maxAlloc` of `make` (so that `NewLife(width, height)` returns), `NextGen` of
the grid whose only `Live` cell is `(0,0)` has every cell `Dead`. -/
theorem C12_corner_cell_dies (width height : Int) (hw : 1 ≤ width) (hh : 1 ≤ height) :
    (∀ g : Life, g.Valid → g.width = width → g.height = height →
      g.inGridNeighbours 0 0 ≤ 3 ∧
      (g.cell 0 0 = some Live → g.liveNeighbours 0 0 < 2 →
        ∃ n : Life, g.NextGen = some n ∧ n.cell 0 0 = some Dead)) ∧
    (width * height ≤ maxAlloc →
      ∃ s n : Life, patternGrid width height [(0, 0)] = some s ∧
        (∀ a b : Int, s.InGrid a b → (s.cell a b = some Live ↔ (a, b) = (0, 0))) ∧
        s.NextGen = some n ∧ (∀ c ∈ n.Cells, c = Dead) ∧ n.Over = true) := by
  constructor
  · intro g hv hgw hgh
    constructor
    · unfold Life.inGridNeighbours
      rw [← List.countP_eq_length_filter]
      have hle : offsets.countP (fun off => decide (g.InGrid (0 + off.1) (0 + off.2))) ≤
          offsets.countP (fun off => decide (0 ≤ off.1 ∧ 0 ≤ off.2)) := by
        apply List.countP_mono_left
        intro off _ hoff
        simp only [decide_eq_true_eq, Life.InGrid] at hoff ⊢
        omega
      exact le_trans hle (by decide)
    · intro hlive hcount
      obtain ⟨n, hn, -⟩ := Life.NextGen_spec hv
      have hin : g.InGrid 0 0 := ⟨le_refl 0, by omega, le_refl 0, by omega⟩
      obtain ⟨s, hs, -, hns⟩ := Life.nextStatus_eq hv hin
      rw [hlive] at hs
      injection hs with hs
      refine ⟨n, hn, ?_⟩
      rw [Life.NextGen_cell hv hn hin, hns, ← hs, switchStatus_live_few (by omega)]
  · intro hfit
    have hpts : ∀ p ∈ ([(0, 0)] : List (Int × Int)),
        0 ≤ p.1 ∧ p.1 < width ∧ 0 ≤ p.2 ∧ p.2 < height := by
      intro p hp
      simp only [List.mem_singleton] at hp
      subst hp
      simp only
      omega
    obtain ⟨s, hs, hv, hsw, hsh, hcell⟩ := patternGrid_spec (by omega) (by omega) hfit hpts
    obtain ⟨n, hn, -⟩ := Life.NextGen_spec hv
    have hin : ∀ p ∈ ([(0, 0)] : List (Int × Int)), s.InGrid p.1 p.2 := by
      intro p hp
      unfold Life.InGrid; rw [hsw, hsh]; exact hpts p hp
    have hdead : ∀ c ∈ n.Cells, c = Dead := by
      intro c hc
      rcases Life.nextGen_cells_mem hv hn hc with hd | ⟨a, b, hab, hns⟩
      · exact hd
      · obtain ⟨s0, hs0, -, hns'⟩ := Life.nextStatus_eq hv hab
        rw [hcell a b hab] at hs0
        injection hs0 with hs0
        rw [hns', ← hs0, Life.liveNeighbours_pattern hin hcell, single_step] at hns
        injection hns with hns
        exact hns.symm
    refine ⟨s, n, hs, ?_, hn, hdead, ?_⟩
    · intro a b hab
      rw [hcell a b hab]
      unfold patternStatus
      by_cases hmem : (a, b) ∈ ([(0, 0)] : List (Int × Int))
      · have : (a, b) = (0, 0) := by simpa using hmem
        simp [hmem, this]
      · have hne : ¬ (a, b) = (0, 0) := by simpa using hmem
        have hDL : ¬ (Dead = Live) := by decide
        simp only [if_neg hmem, Option.some.injEq, hDL, hne]
    · rw [Life.Over, overLoop_true_iff]
      intro c hc hl
      rw [hdead c hc] at hl
      exact absurd hl (by decide)

/-- C12, on a 3x2 grid. -/
theorem C12_corner_cell_dies_witness :
    (1 : Int) ≤ 3 ∧ (1 : Int) ≤ 2 ∧ (3 : Int) * 2 ≤ maxAlloc ∧
      ((∀ g : Life, g.Valid → g.width = 3 → g.height = 2 →
        g.inGridNeighbours 0 0 ≤ 3 ∧
        (g.cell 0 0 = some Live → g.liveNeighbours 0 0 < 2 →
          ∃ n : Life, g.NextGen = some n ∧ n.cell 0 0 = some Dead)) ∧
      ((3 : Int) * 2 ≤ maxAlloc →
        ∃ s n : Life, patternGrid 3 2 [(0, 0)] = some s ∧
          (∀ a b : Int, s.InGrid a b → (s.cell a b = some Live ↔ (a, b) = (0, 0))) ∧
          s.NextGen = some n ∧ (∀ c ∈ n.Cells, c = Dead) ∧ n.Over = true)) :=
  ⟨by decide, by decide, by decide, C12_corner_cell_dies 3 2 (by decide) (by decide)⟩

/-- C13: seed-then-count.  For every width, height and list of in-range
coordinates, `NewLife(width, height)` followed by `Seed` on each coordinate of
the list returns a grid whose cell `(x,y)` is `Live` if and only if `(x,y)`
occurs in the list (and is `Dead` otherwise), and on which `Over()` is false
when the list is non-empty.  The grid is obtained from `NewLife`, which returns
when `width*height` is not negative (a non-empty list of in-range coordinates
excludes that) and within the allocation limit `maxAlloc` of `make`. -/
theorem C13_seed_then_count (width height : Int) (pts : List (Int × Int))
    (hpts : ∀ p ∈ pts, 0 ≤ p.1 ∧ p.1 < width ∧ 0 ≤ p.2 ∧ p.2 < height)
    (hnew : pts = [] → 0 ≤ width * height) (hfit : width * height ≤ maxAlloc) :
    ∃ g : Life, patternGrid width height pts = some g ∧ g.width = width ∧
      g.height = height ∧
      (∀ x y : Int, g.InGrid x y → (g.cell x y = some Live ↔ (x, y) ∈ pts)) ∧
      (∀ x y : Int, g.InGrid x y → (x, y) ∉ pts → g.cell x y = some Dead) ∧
      (pts ≠ [] → g.Over = false) := by
  have hp : 0 ≤ width * height := by
    cases pts with
    | nil => exact hnew rfl
    | cons p ps =>
      have := hpts p (List.mem_cons_self _ _)
      exact Int.mul_nonneg (by omega) (by omega)
  let g0 : Life :=
    { Cells := List.replicate (width * height).toNat Dead, width := width, height := height }
  have hnew0 : NewLife width height = some g0 := NewLife_of_fit hp hfit
  obtain ⟨hv0, -⟩ := NewLife_valid_binary hnew0 hp hfit
  obtain ⟨g, hg, hv, hgw, hgh, hcell⟩ := seedAll_spec pts g0 hv0 hpts
  have hcell' : ∀ x y : Int, g.InGrid x y →
      g.cell x y = if (x, y) ∈ pts then some Live else some Dead := by
    intro x y hin
    have hin0 : g0.InGrid x y := (Life.inGrid_congr hgw hgh).mp hin
    rw [hcell x y hin0]
    obtain ⟨s, hs, hsmem⟩ := Life.cell_of_inGrid hv0 hin0
    have hsd : s = Dead := List.eq_of_mem_replicate hsmem
    rw [hs, hsd]
  have hDL : ¬ (Dead = Live) := by decide
  refine ⟨g, by simp [patternGrid, hnew0, hg], hgw, hgh, ?_, ?_, ?_⟩
  · intro x y hin
    rw [hcell' x y hin]
    by_cases hmem : (x, y) ∈ pts
    · simp [hmem]
    · simp [hmem, hDL]
  · intro x y hin hmem
    rw [hcell' x y hin, if_neg hmem]
  · intro hne
    obtain ⟨p, hp⟩ := List.exists_mem_of_ne_nil pts hne
    have hin : g.InGrid p.1 p.2 := (Life.inGrid_congr hgw hgh).mpr (hpts p hp)
    have hlive : g.cell p.1 p.2 = some Live := by
      rw [hcell' _ _ hin, if_pos hp]
    rw [Life.Over, overLoop_false_iff]
    exact ⟨Live, readCell_mem hlive, rfl⟩

/-- C13, seeding `(1,1)` and `(2,1)` on a 5x5 grid. -/
theorem C13_seed_then_count_witness :
    (∀ p ∈ ([(1, 1), (2, 1)] : List (Int × Int)), 0 ≤ p.1 ∧ p.1 < 5 ∧ 0 ≤ p.2 ∧ p.2 < 5) ∧
      (5 : Int) * 5 ≤ maxAlloc ∧
      ∃ g : Life, patternGrid 5 5 [(1, 1), (2, 1)] = some g ∧ g.width = 5 ∧ g.height = 5 ∧
        (∀ x y : Int, g.InGrid x y →
          (g.cell x y = some Live ↔ (x, y) ∈ ([(1, 1), (2, 1)] : List (Int × Int)))) ∧
        (∀ x y : Int, g.InGrid x y → (x, y) ∉ ([(1, 1), (2, 1)] : List (Int × Int)) →
          g.cell x y = some Dead) ∧
        (([(1, 1), (2, 1)] : List (Int × Int)) ≠ [] → g.Over = false) :=
  ⟨by decide, by decide,
    C13_seed_then_count 5 5 [(1, 1), (2, 1)] (by decide) (by decide) (by decide)⟩

/-- C14: `Seed` is idempotent.  On a grid whose cell array has length
`width*height` and for an in-range `(x,y)`, if the cell `(x,y)` is `Live`
already then `Seed(x,y)` returns and leaves the grid as it was; hence a second
`Seed(x,y)` after a first one changes nothing. -/
theorem C14_seed_idempotent (g : Life) (hlen : g.Valid) (x y : Int) (hin : g.InGrid x y) :
    (g.cell x y = some Live → g.Seed x y = (some (), g)) ∧
      (g.Seed x y).2.Seed x y = (some (), (g.Seed x y).2) := by
  refine ⟨Life.seed_live_noop hlen hin, ?_⟩
  obtain ⟨hv1, hw1, hh1⟩ := Life.seed_valid hlen hin
  have hin1 : (g.Seed x y).2.InGrid x y := (Life.inGrid_congr hw1 hh1).mpr hin
  apply Life.seed_live_noop hv1 hin1
  have := Life.cell_set hlen hin Live hin
  rw [Life.Seed_eq hlen hin]
  simpa [Life.cell] using this

/-- C14, seeding `(1,0)` on the 2x2 grid of `Dead` cells. -/
theorem C14_seed_idempotent_witness :
    deadGrid2x2.Valid ∧ deadGrid2x2.InGrid 1 0 ∧
      ((deadGrid2x2.cell 1 0 = some Live → deadGrid2x2.Seed 1 0 = (some (), deadGrid2x2)) ∧
        (deadGrid2x2.Seed 1 0).2.Seed 1 0 = (some (), (deadGrid2x2.Seed 1 0).2)) :=
  ⟨by decide, by decide, C14_seed_idempotent deadGrid2x2 (by decide) 1 0 (by decide)⟩

/-- C15: `NextGen` is total and never indexes out of bounds.  On a grid with
`width >= 0`, `height >= 0` and a cell array of length `width*height`, `NextGen`
returns, and for every in-range `(i,j)` the index `j*width+i` of the store and
of the read of the cell itself lies in `[0, width*height)`, as does the index
of the read for every offset that passes the bounds check; each of these reads
yields a value, each step of the counting loop and `nextStatus` return. -/
theorem C15_nextGen_total_in_bounds (g : Life) (hlen : g.Valid) (hw : 0 ≤ g.width)
    (hh : 0 ≤ g.height) :
    (∃ n : Life, g.NextGen = some n) ∧
      ∀ i j : Int, g.InGrid i j →
        (0 ≤ g.index i j ∧ g.index i j < g.width * g.height) ∧
        (∃ s, readCell g.Cells (g.index i j) = some s) ∧
        (∀ off ∈ offsets, g.passesCheck (i + off.1) (j + off.2) →
          0 ≤ g.index (i + off.1) (j + off.2) ∧
          g.index (i + off.1) (j + off.2) < g.width * g.height ∧
          ∃ s, readCell g.Cells (g.index (i + off.1) (j + off.2)) = some s) ∧
        (∀ off ∈ offsets, ∀ count : Int, ∃ count', g.countStep i j count off = some count') ∧
        (∃ v, g.nextStatus i j = some v ∧
          ∀ cells : List Status, (cells.length : Int) = g.width * g.height →
            ∃ cells', writeCell cells (g.index i j) v = some cells') := by
  have hwh : 0 ≤ g.width * g.height := Int.mul_nonneg hw hh
  obtain ⟨n, hn, -⟩ := Life.NextGen_spec hlen
  refine ⟨⟨n, hn⟩, ?_⟩
  intro i j hin
  obtain ⟨hi0, hiw, hj0, hjh⟩ := hin
  have hb := index_bounds hi0 hiw hj0 hjh
  have hix : g.index i j = j * g.width + i :=
    Life.index_of_inGrid hlen ⟨hi0, hiw, hj0, hjh⟩
  rw [hix]
  obtain ⟨s, hs, -⟩ := Life.cell_of_inGrid hlen (x := i) (y := j) ⟨hi0, hiw, hj0, hjh⟩
  obtain ⟨s', -, -, hns⟩ := Life.nextStatus_eq hlen (x := i) (y := j) ⟨hi0, hiw, hj0, hjh⟩
  refine ⟨hb, ⟨s, hs⟩, ?_, ?_, ⟨_, hns, ?_⟩⟩
  · intro off _ hpass
    have hin' : g.InGrid (i + off.1) (j + off.2) := by
      unfold Life.passesCheck at hpass
      unfold Life.InGrid
      omega
    rw [Life.index_of_inGrid hlen hin']
    obtain ⟨h1, h2, h3, h4⟩ := hin'
    obtain ⟨t, ht, -⟩ := Life.cell_of_inGrid hlen (x := i + off.1) (y := j + off.2)
      ⟨h1, h2, h3, h4⟩
    have hb' := index_bounds h1 h2 h3 h4
    exact ⟨hb'.1, hb'.2, t, ht⟩
  · intro off _ count
    exact ⟨_, Life.countStep_eq hlen i j count off⟩
  · intro cells hcl
    have hk : (j * g.width + i).toNat < cells.length := by
      have h1 := hb.1
      have h2 := hb.2
      omega
    have hcond : 0 ≤ j * g.width + i ∧ (j * g.width + i).toNat < cells.length := ⟨hb.1, hk⟩
    exact ⟨cells.set (j * g.width + i).toNat _, by rw [writeCell, if_pos hcond]⟩

/-- C15, on the 3x3 grid whose middle column is `Live`. -/
theorem C15_nextGen_total_in_bounds_witness :
    columnGrid3x3.Valid ∧ 0 ≤ columnGrid3x3.width ∧ 0 ≤ columnGrid3x3.height ∧
      ((∃ n : Life, columnGrid3x3.NextGen = some n) ∧
        ∀ i j : Int, columnGrid3x3.InGrid i j →
          (0 ≤ columnGrid3x3.index i j ∧
            columnGrid3x3.index i j < columnGrid3x3.width * columnGrid3x3.height) ∧
          (∃ s, readCell columnGrid3x3.Cells (columnGrid3x3.index i j) = some s) ∧
          (∀ off ∈ offsets, columnGrid3x3.passesCheck (i + off.1) (j + off.2) →
            0 ≤ columnGrid3x3.index (i + off.1) (j + off.2) ∧
            columnGrid3x3.index (i + off.1) (j + off.2) <
              columnGrid3x3.width * columnGrid3x3.height ∧
            ∃ s, readCell columnGrid3x3.Cells (columnGrid3x3.index (i + off.1) (j + off.2)) =
              some s) ∧
          (∀ off ∈ offsets, ∀ count : Int,
            ∃ count', columnGrid3x3.countStep i j count off = some count') ∧
          (∃ v, columnGrid3x3.nextStatus i j = some v ∧
            ∀ cells : List Status,
              (cells.length : Int) = columnGrid3x3.width * columnGrid3x3.height →
              ∃ cells', writeCell cells (columnGrid3x3.index i j) v = some cells')) :=
  ⟨by decide, by decide, by decide,
    C15_nextGen_total_in_bounds columnGrid3x3 (by decide) (by decide) (by decide)⟩

/-- C17: the layout claimed for `Dump` (one line per row `y`, of `width`
characters) is not what the code writes.  On the 3x1 grid built by
`NewLife(3, 1)` and `Seed(1, 0)` the claimed text is a line of three dashes and
the one line ` O `; `Dump` writes the three dashes and then three lines of one
character, one line per column.  On the 20x20 grid of `main` the two texts
differ as well. -/
theorem C17_dump_writes_columns :
    patternGrid 3 1 [(1, 0)] = some rowGrid3x1 ∧
      rowGrid3x1.Dump = some "---\n \nO\n \n".toList ∧
      rowGrid3x1.rowLayout = "---\n O \n".toList ∧
      rowGrid3x1.Dump ≠ some rowGrid3x1.rowLayout ∧
      ∃ g : Life, demoGrid = some g ∧ g.Dump = some g.columnLayout ∧
        g.Dump ≠ some g.rowLayout := by
  refine ⟨by decide, by decide, by decide, by decide, _, demo_start, ?_, ?_⟩
  · exact Life.Dump_eq (bitGrid_valid (w := 20) (h := 20) (by decide) (by decide) (by decide) _)
      (by decide)
  · rw [Life.Dump_eq (bitGrid_valid (w := 20) (h := 20) (by decide) (by decide) (by decide) _)
      (by decide)]
    exact demo_layouts_differ

/-- C18, as stated, fails: no generation of the demonstration run is extinct. -/
theorem C18_demo_extinction_counterexample :
    ¬ ∃ n : Nat, ∃ g : Life, demoGrid.bind (iterGen n) = some g ∧ g.Over = true := by
  rintro ⟨n, g, hg, hover⟩
  obtain ⟨g', hg', hover', -⟩ := demo_generation n
  rw [hg] at hg'
  injection hg' with hg'
  rw [hg', hover'] at hover
  exact Bool.noConfusion hover

/-- C18, amended: the demonstration run never reaches extinction.  Every
generation of the 20x20 grid seeded by `main` exists and has a `Live` cell; from
generation 34 on the grid is the still life of a beehive and a block, 10 `Live`
cells; and the loop of `main` is still running after any number of iterations. -/
theorem C18_demo_runs_forever :
    (∀ n : Nat, ∃ g : Life, demoGrid.bind (iterGen n) = some g ∧ g.Over = false) ∧
      (∀ m : Nat, demoGrid.bind (iterGen (34 + m)) = some (bitGrid 20 20 demoStill)) ∧
      patternGrid 20 20 demoStillPts = some (bitGrid 20 20 demoStill) ∧
      (bitGrid 20 20 demoStill).NextGen = some (bitGrid 20 20 demoStill) ∧
      (∀ fuel : Nat, mainRun fuel = Outcome.running) := by
  refine ⟨?_, ?_, demo_still_pts, still_step (by decide) demo_still.2.2.1, ?_⟩
  · intro n
    obtain ⟨g, hg, hover, -⟩ := demo_generation n
    exact ⟨g, hg, hover⟩
  · intro m
    obtain ⟨g, hg, -, -, -, hstill⟩ := demo_generation (34 + m)
    rw [hg, hstill (by omega)]
  · intro fuel
    obtain ⟨g0, hg0, -⟩ := demo_generation 0
    have hstart : demoGrid = some g0 := by
      cases hd : demoGrid with
      | none => rw [hd] at hg0; simp at hg0
      | some g => rw [hd] at hg0; simpa [iterGen] using hg0
    have hrun := mainLoop_running (P := fun g => ∃ n : Nat, demoGrid.bind (iterGen n) = some g)
      (by
        rintro g ⟨n, hn⟩
        obtain ⟨g1, hg1, hover, hv, hw, -⟩ := demo_generation n
        rw [hn] at hg1
        injection hg1 with hg1
        subst hg1
        obtain ⟨g2, hg2, -⟩ := demo_generation (n + 1)
        refine ⟨hover, hv, hw, g2, ?_, n + 1, hg2⟩
        rw [hstart, Option.some_bind] at hn hg2
        rw [iterGen_add, hn, Option.some_bind] at hg2
        simpa [iterGen] using hg2)
      fuel 0 g0 ⟨0, by rw [hstart]; rfl⟩
    unfold mainRun
    rw [hstart]
    exact hrun

/-- C19, as stated, fails: on the 4x2 grid of `Dead` cells, at `x = 0` and
`y = 2^62 + 1`, the number `y*width+x = 2^64 + 4` lies outside `[0, 8)`, yet
`Seed(x,y)` returns: the program computes the index in 64-bit arithmetic, where
it is 4, and sets the cell at flat index 4, the cell `(0,1)`. -/
theorem C19_seed_index_wraps_counterexample :
    deadGrid4x2.Valid ∧
      ¬ (0 ≤ 4611686018427387905 * deadGrid4x2.width + 0 ∧
        4611686018427387905 * deadGrid4x2.width + 0 <
          deadGrid4x2.width * deadGrid4x2.height) ∧
      deadGrid4x2.index 0 4611686018427387905 = 4 ∧
      deadGrid4x2.Seed 0 4611686018427387905 =
        (some (), { Cells := [Dead, Dead, Dead, Dead, Live, Dead, Dead, Dead],
                    width := 4, height := 2 }) ∧
      (deadGrid4x2.Seed 0 4611686018427387905).2.cell 0 1 = some Live := by
  decide

/-- C19, amended: `Seed` checks only the flat index.  On a grid whose cell array
has length `width*height`, for all integers `x`, `y`, `Seed(x,y)` returns
exactly when the flat index the program computes, which is `y*width+x` reduced
to the signed 64-bit range, lies in `[0, width*height)`, and it then sets the
cell at that index to `Live` and changes nothing else; for `y*width+x` within
the signed 64-bit range the condition is `0 <= y*width+x < width*height`.  For
`width >= 1` and `0 <= y`, `y+1 < height`, `Seed(width, y)` returns and yields
the same grid as `Seed(0, y+1)`. -/
theorem C19_seed_checks_wrapped_flat_index (g : Life) (hlen : g.Valid) (x y : Int) :
    ((g.Seed x y).1 = some () ↔
        (0 ≤ g.index x y ∧ g.index x y < g.width * g.height)) ∧
      g.index x y = wrap64 (y * g.width + x) ∧
      ((0 ≤ g.index x y ∧ g.index x y < g.width * g.height) →
        (g.Seed x y).2.Cells = g.Cells.set (g.index x y).toNat Live ∧
        readCell (g.Seed x y).2.Cells (g.index x y) = some Live ∧
        (g.Seed x y).2.width = g.width ∧ (g.Seed x y).2.height = g.height) ∧
      (-9223372036854775808 ≤ y * g.width + x → y * g.width + x < 9223372036854775808 →
        ((g.Seed x y).1 = some () ↔
          (0 ≤ y * g.width + x ∧ y * g.width + x < g.width * g.height))) ∧
      (1 ≤ g.width → 0 ≤ y → y + 1 < g.height →
        (g.Seed g.width y).1 = some () ∧ g.Seed g.width y = g.Seed 0 (y + 1)) := by
  have hv : (g.Cells.length : Int) = g.width * g.height := hlen.1
  have hseed : ∀ a b : Int, 0 ≤ g.index a b → g.index a b < g.width * g.height →
      g.Seed a b = (some (), { g with Cells := g.Cells.set (g.index a b).toNat Live }) := by
    intro a b h0 h1
    have hk : (g.index a b).toNat < g.Cells.length := by omega
    simp [Life.Seed, writeCell, h0, hk]
  have hiff : (g.Seed x y).1 = some () ↔
      (0 ≤ g.index x y ∧ g.index x y < g.width * g.height) := by
    constructor
    · intro hok
      by_contra hout
      have hk : ¬ (0 ≤ g.index x y ∧ (g.index x y).toNat < g.Cells.length) := by omega
      simp only [Life.Seed, writeCell, if_neg hk] at hok
      exact Option.noConfusion hok
    · rintro ⟨h0, h1⟩
      rw [hseed x y h0 h1]
  refine ⟨hiff, Life.index_eq_wrap g x y, ?_, ?_, ?_⟩
  · rintro ⟨h0, h1⟩
    have hk : (g.index x y).toNat < g.Cells.length := by omega
    rw [hseed x y h0 h1]
    refine ⟨rfl, ?_, rfl, rfl⟩
    simp [readCell, h0, hk]
  · intro h0 h1
    have hix : g.index x y = y * g.width + x := by
      rw [Life.index_eq_wrap]; exact wrap64_of_range h0 h1
    rw [← hix]
    exact hiff
  · intro hw hy0 hy1
    have hidx : y * g.width + g.width = (y + 1) * g.width + 0 := by ring
    have hin : g.InGrid 0 (y + 1) := ⟨le_refl 0, by omega, by omega, hy1⟩
    have hb := index_bounds hin.1 hin.2.1 hin.2.2.1 hin.2.2.2
    have hix := Life.index_of_inGrid hlen hin
    have heq : g.Seed g.width y = g.Seed 0 (y + 1) := by
      simp only [Life.Seed, Life.index_eq_wrap, hidx]
    refine ⟨?_, heq⟩
    rw [heq, hseed 0 (y + 1) (by rw [hix]; exact hb.1) (by rw [hix]; exact hb.2)]

/-- C19 amended, on the 2x2 grid of `Dead` cells at `(2,0)`. -/
theorem C19_seed_checks_wrapped_flat_index_witness :
    deadGrid2x2.Valid ∧
      (((deadGrid2x2.Seed 2 0).1 = some () ↔
          (0 ≤ deadGrid2x2.index 2 0 ∧
            deadGrid2x2.index 2 0 < deadGrid2x2.width * deadGrid2x2.height)) ∧
        deadGrid2x2.index 2 0 = wrap64 (0 * deadGrid2x2.width + 2) ∧
        ((0 ≤ deadGrid2x2.index 2 0 ∧
            deadGrid2x2.index 2 0 < deadGrid2x2.width * deadGrid2x2.height) →
          (deadGrid2x2.Seed 2 0).2.Cells =
            deadGrid2x2.Cells.set (deadGrid2x2.index 2 0).toNat Live ∧
          readCell (deadGrid2x2.Seed 2 0).2.Cells (deadGrid2x2.index 2 0) = some Live ∧
          (deadGrid2x2.Seed 2 0).2.width = deadGrid2x2.width ∧
          (deadGrid2x2.Seed 2 0).2.height = deadGrid2x2.height) ∧
        (-9223372036854775808 ≤ 0 * deadGrid2x2.width + 2 →
          0 * deadGrid2x2.width + 2 < 9223372036854775808 →
          ((deadGrid2x2.Seed 2 0).1 = some () ↔
            (0 ≤ 0 * deadGrid2x2.width + 2 ∧
              0 * deadGrid2x2.width + 2 < deadGrid2x2.width * deadGrid2x2.height))) ∧
        (1 ≤ deadGrid2x2.width → (0 : Int) ≤ 0 → (0 : Int) + 1 < deadGrid2x2.height →
          (deadGrid2x2.Seed deadGrid2x2.width 0).1 = some () ∧
          deadGrid2x2.Seed deadGrid2x2.width 0 = deadGrid2x2.Seed 0 (0 + 1))) :=
  ⟨by decide, C19_seed_checks_wrapped_flat_index deadGrid2x2 (by decide) 2 0⟩

/-- C20: `NextGen` commutes with transposition.  For a grid `g` whose cell
array has length `width*height`, and `T(g)` the grid of width `height` and
height `width` whose cell `(y,x)` is the cell `(x,y)` of `g`: `NextGen` returns
on both, and `NextGen(T(g))` is `T(NextGen(g))`. -/
theorem C20_nextGen_commutes_with_transpose (g : Life) (hlen : g.Valid) :
    g.transpose.width = g.height ∧ g.transpose.height = g.width ∧ g.transpose.Valid ∧
      (∀ x y : Int, g.InGrid x y → g.transpose.cell y x = g.cell x y) ∧
      ∃ n : Life, g.NextGen = some n ∧ g.transpose.NextGen = some n.transpose := by
  obtain ⟨n, hn, -⟩ := Life.NextGen_spec hlen
  exact ⟨rfl, rfl, Life.transpose_valid hlen, fun x y hin => Life.transpose_cell hlen hin,
    n, hn, Life.transpose_nextGen_all hlen hn⟩

/-- C20, on a 3x2 grid. -/
theorem C20_nextGen_commutes_with_transpose_witness :
    sampleGrid3x2.Valid ∧
      (sampleGrid3x2.transpose.width = sampleGrid3x2.height ∧
        sampleGrid3x2.transpose.height = sampleGrid3x2.width ∧ sampleGrid3x2.transpose.Valid ∧
        (∀ x y : Int, sampleGrid3x2.InGrid x y →
          sampleGrid3x2.transpose.cell y x = sampleGrid3x2.cell x y) ∧
        ∃ n : Life, sampleGrid3x2.NextGen = some n ∧
          sampleGrid3x2.transpose.NextGen = some n.transpose) :=
  ⟨by decide, C20_nextGen_commutes_with_transpose sampleGrid3x2 (by decide)⟩

end GameOfLife
